import Mathlib

/-! Segregated free-list pool (`mem_pool.cpp`) and uniform-block pool
(`mem_pool_simple.cpp`).

A shallow embedding of the multi-level memory pool: `Init`, `Malloc`, `Free`
and `Destroy` over an explicit pool state and an explicit model of the
general-purpose allocator (`malloc`/`free`/`memset`).

* Addresses are natural numbers, the null pointer is `0`.
* A linked chain of `Block` records is a `List Block`; the `next` field is the
  tail of the list.  A class entry `block_list[i]` is `none` when the head
  pointer is null and `some l` when a head node exists whose chain is `l`.
* Undefined behaviour of the C++ code (null dereference, array index out of
  range, `free` of an address that is not a live allocation base) is a `Fault`.
* The answer of the underlying `malloc` is supplied per call by an oracle
  `sys : Nat → Nat` (requested byte count to returned address, `0` = failure).
* The uniform-block pool of `mem_pool_simple.cpp` lives in the namespace
  `Simple`; its `std::vector` of free blocks is a list whose back is the last
  element, and its `size_t` products and 64-bit pointer additions are taken
  modulo `2^64`.
-/

namespace MemPool

/-! ## Constants and data model -/

/-- Smallest block size (`BLOCK_SIZE_MIN`). -/
def BLOCK_SIZE_MIN : Nat := 8

/-- Largest block size (`BLOCK_SIZE_MAX`). -/
def BLOCK_SIZE_MAX : Nat := 512

/-- Record `Block`: address of the region and recorded size.  The `next`
pointer is the tail of the list holding the record. -/
structure Block where
  ptr : Nat
  size : Nat
deriving DecidableEq, Repr

/-- Record `MemoryPool`: the two size fields and the array of class heads. -/
structure MemoryPool where
  block_size_min : Nat
  block_size_max : Nat
  block_list : List (Option (List Block))
deriving DecidableEq, Repr

/-- State of the general-purpose allocator and of memory: the outstanding
allocations as `(base, length)` and the byte stored at every address. -/
structure Heap where
  live : List (Nat × Nat)
  mem : Nat → Nat

/-- Undefined behaviour the embedding makes explicit.  A fault is not a result
of the program: where an operation yields a fault, the C++ code defines neither
a return value nor a state, and what a compiled program does there (abort,
return, carry on) is not described by the embedding. -/
inductive Fault where
  | nullDeref
  | outOfBounds (index : Int)
  | invalidFree (ptr : Nat)
deriving DecidableEq, Repr

/-! ## The general-purpose allocator -/

/-- Library `malloc(n)` answering `r`: a non-null answer becomes a live
allocation of `n` bytes, a null answer changes nothing. -/
def sysMalloc (h : Heap) (n r : Nat) : Nat × Heap :=
  if r = 0 then (0, h) else (r, { h with live := (r, n) :: h.live })

/-- Library `free(ptr)`: a no-op on null, a fault when `ptr` is not the base of
a live allocation, otherwise the allocation is no longer live. -/
def sysFree (h : Heap) (ptr : Nat) : Except Fault Heap :=
  if ptr = 0 then .ok h
  else if h.live.any (fun a => a.1 == ptr) then
    .ok { h with live := h.live.filter (fun a => a.1 != ptr) }
  else .error (.invalidFree ptr)

/-- Library `memset(p, 0, n)`: bytes `p .. p+n-1` become zero; a fault
(undefined behaviour) on the null pointer. -/
def memset (h : Heap) (p n : Nat) : Except Fault Heap :=
  if p = 0 then .error .nullDeref
  else .ok { h with mem := fun a => if p ≤ a ∧ a < p + n then 0 else h.mem a }

/-- A caller storing byte `v` at address `a`. -/
def store (h : Heap) (a v : Nat) : Heap :=
  { h with mem := fun x => if x = a then v else h.mem x }

/-! ## Size-class index -/

/-- Conversion of an unsigned value to 32-bit `int` (two's complement). -/
def toInt32 (n : Nat) : Int :=
  if n % 2 ^ 32 < 2 ^ 31 then ((n % 2 ^ 32 : Nat) : Int)
  else ((n % 2 ^ 32 : Nat) : Int) - 2 ^ 32

/-- The index computation shared verbatim by `Malloc` and `Free`:
`int index = size / BLOCK_SIZE_MIN - 1; if (size % BLOCK_SIZE_MIN != 0) index++;`
The subtraction is `size_t` arithmetic (modulo `2^64`), its result is converted
to `int`. -/
def classIndex (size : Nat) : Int :=
  let index := toInt32 ((size / BLOCK_SIZE_MIN + (2 ^ 64 - 1)) % 2 ^ 64)
  if size % BLOCK_SIZE_MIN ≠ 0 then index + 1 else index

/-- Reading `pool.block_list[index]`: a fault when `index` is outside the
array. -/
def lookup (pool : MemoryPool) (index : Int) : Except Fault (Option (List Block)) :=
  if index < 0 then .error (.outOfBounds index)
  else
    match pool.block_list[index.toNat]? with
    | none => .error (.outOfBounds index)
    | some head => .ok head

/-! ## Pool operations -/

/-- `Init`: `memset(pool.block_list, 0, sizeof(pool.block_list))`, every head
pointer becomes null. -/
def Init (pool : MemoryPool) : MemoryPool :=
  { pool with block_list := List.replicate (BLOCK_SIZE_MAX / BLOCK_SIZE_MIN) none }

/-- The carving loop of `Malloc`: for `i = 0 .. block_num-1` a new record for
the slice at offset `i * block_size` is pushed at the front of the chain. -/
def carve (ptr block_size block_num : Nat) (chain : List Block) : List Block :=
  (List.range block_num).foldl
    (fun acc i => { ptr := ptr + i * block_size, size := block_size } :: acc) chain

/-- `Malloc(pool, size)`; `sys` is the answer of the underlying `malloc`.
Returns the address handed out, the new pool and the new heap. -/
def Malloc (sys : Nat → Nat) (pool : MemoryPool) (heap : Heap) (size : Nat) :
    Except Fault (Nat × MemoryPool × Heap) :=
  if size > BLOCK_SIZE_MAX then
    let (m, heap1) := sysMalloc heap size (sys size)
    match memset heap1 m size with
    | .error e => .error e
    | .ok heap2 => .ok (m, pool, heap2)
  else
    let index := classIndex size
    match lookup pool index with
    | .error e => .error e
    | .ok head =>
      -- a null head is replaced by a fresh head node with an empty chain
      let chain : List Block := match head with
        | none => []
        | some l => l
      let provisioned : Except Fault (List Block × Heap) :=
        match chain with
        | [] =>
          let block_size := (index + 1).toNat * BLOCK_SIZE_MIN
          let block_num := BLOCK_SIZE_MAX / block_size
          let (ptr, heap1) := sysMalloc heap (block_size * block_num) (sys (block_size * block_num))
          match memset heap1 ptr (block_size * block_num) with
          | .error e => .error e
          | .ok heap2 => .ok (carve ptr block_size block_num [], heap2)
        | b :: rest => .ok (b :: rest, heap)
      match provisioned with
      | .error e => .error e
      | .ok ([], _) => .error .nullDeref
      | .ok (block :: rest, heap2) =>
        .ok (block.ptr, { pool with block_list := pool.block_list.set index.toNat (some rest) }, heap2)

/-- `Free(pool, ptr, size)`. -/
def Free (pool : MemoryPool) (heap : Heap) (ptr size : Nat) :
    Except Fault (MemoryPool × Heap) :=
  if size > BLOCK_SIZE_MAX then
    match sysFree heap ptr with
    | .error e => .error e
    | .ok heap1 => .ok (pool, heap1)
  else
    let index := classIndex size
    match lookup pool index with
    | .error e => .error e
    | .ok none => .error .nullDeref
    | .ok (some chain) =>
      let block : Block := { ptr := ptr, size := size }
      match memset heap block.ptr block.size with
      | .error e => .error e
      | .ok heap1 =>
        .ok ({ pool with block_list := pool.block_list.set index.toNat (some (block :: chain)) }, heap1)

/-- The inner loop of `Destroy`: `free(p->ptr)` for every record of a chain. -/
def freeChain : List Block → Heap → Except Fault Heap
  | [], h => .ok h
  | p :: next, h =>
    match sysFree h p.ptr with
    | .error e => .error e
    | .ok h1 => freeChain next h1

/-- The outer loop of `Destroy` over the class indices still to visit. -/
def destroyLoop (pool : MemoryPool) : List Nat → Heap → Except Fault Heap
  | [], h => .ok h
  | i :: is, h =>
    match lookup pool (i : Int) with
    | .error e => .error e
    | .ok none => .error .nullDeref
    | .ok (some chain) =>
      match freeChain chain h with
      | .error e => .error e
      | .ok h1 => destroyLoop pool is h1

/-- `Destroy(pool)`: visits the classes `0 .. BLOCK_SIZE_MAX / BLOCK_SIZE_MIN - 1`. -/
def Destroy (pool : MemoryPool) (heap : Heap) : Except Fault Heap :=
  destroyLoop pool (List.range (BLOCK_SIZE_MAX / BLOCK_SIZE_MIN)) heap

/-! ## The demonstration harness `Test` -/

/-- The pool record declared in `Test` with its two size fields assigned (the
array of heads is not yet initialised). -/
def pool0 : MemoryPool :=
  { block_size_min := BLOCK_SIZE_MIN, block_size_max := BLOCK_SIZE_MAX, block_list := [] }

/-- A heap with no outstanding allocation and every byte zero. -/
def heap0 : Heap := { live := [], mem := fun _ => 0 }

/-- First loop of `Test`: `ptr[i] = Malloc(pool, size[i])`; `sys i` answers the
underlying `malloc` during iteration `i`. -/
def mallocLoop (sys : Nat → Nat → Nat) :
    List Nat → Nat → MemoryPool → Heap → Except Fault (List Nat × MemoryPool × Heap)
  | [], _, pool, heap => .ok ([], pool, heap)
  | size :: sizes, i, pool, heap =>
    match Malloc (sys i) pool heap size with
    | .error e => .error e
    | .ok (p, pool1, heap1) =>
      match mallocLoop sys sizes (i + 1) pool1 heap1 with
      | .error e => .error e
      | .ok (ps, pool2, heap2) => .ok (p :: ps, pool2, heap2)

/-- Inner loop of the second loop of `Test`: `p[j] = v` for `j < n`. -/
def fill (p v : Nat) : Nat → Heap → Heap
  | 0, h => h
  | j + 1, h => store (fill p v j h) (p + j) v

/-- Second loop of `Test`: block `i` is filled with the letter `i + 65`. -/
def useLoop : List Nat → List Nat → Nat → Heap → Heap
  | p :: ps, size :: sizes, i, h => useLoop ps sizes (i + 1) (fill p (i + 65) size h)
  | _, _, _, h => h

/-- Third loop of `Test`: `Free(pool, ptr[i], size[i])`. -/
def freeLoop : List Nat → List Nat → MemoryPool → Heap → Except Fault (MemoryPool × Heap)
  | p :: ps, size :: sizes, pool, heap =>
    match Free pool heap p size with
    | .error e => .error e
    | .ok (pool1, heap1) => freeLoop ps sizes pool1 heap1
  | _, _, pool, heap => .ok (pool, heap)

/-- The function `Test`: `Init`, ten `Malloc`, use, ten `Free`, `Destroy`. -/
def Test (sys : Nat → Nat → Nat) (heap : Heap) : Except Fault Heap :=
  let pool := Init pool0
  let size := [15, 20, 30, 40, 60, 80, 120, 200, 300, 512]
  match mallocLoop sys size 0 pool heap with
  | .error e => .error e
  | .ok (ptr, pool1, heap1) =>
    let heap2 := useLoop ptr size 0 heap1
    match freeLoop ptr size pool1 heap2 with
    | .error e => .error e
    | .ok (pool3, heap3) => Destroy pool3 heap3

/-! ## Scenarios evaluated by the theorems below -/

/-- `Malloc(9)`, a store at offset 12 of the 16-byte block, `Free(p, 9)`, then
`Malloc(16)`: the two addresses and the byte at offset 12 of the second
region. -/
def recycleScenario : Except Fault (Nat × Nat × Nat) :=
  match Malloc (fun _ => 1000) (Init pool0) heap0 9 with
  | .error e => .error e
  | .ok (p, pool1, heap1) =>
    match Free pool1 (store heap1 (p + 12) 65) p 9 with
    | .error e => .error e
    | .ok (pool2, heap2) =>
      match Malloc (fun _ => 5000) pool2 heap2 16 with
      | .error e => .error e
      | .ok (q, _, heap3) => .ok (p, q, heap3.mem (q + 12))

/-- `Malloc(15)` then `Free(p, 15)`: the record at the front of class 1. -/
def releaseScenario : Except Fault (Option Block) :=
  match Malloc (fun _ => 1000) (Init pool0) heap0 15 with
  | .error e => .error e
  | .ok (p, pool1, heap1) =>
    match Free pool1 heap1 p 15 with
    | .error e => .error e
    | .ok (pool2, _) =>
      match lookup pool2 1 with
      | .error e => .error e
      | .ok head => .ok (head.bind List.head?)

/-- `Malloc(8)`, `Free(p, 8)`, `Destroy`: the allocations still live at the
end. -/
def teardownScenario : Except Fault (List (Nat × Nat)) :=
  match Malloc (fun _ => 1000) (Init pool0) heap0 8 with
  | .error e => .error e
  | .ok (p, pool1, heap1) =>
    match Free pool1 heap1 p 8 with
    | .error e => .error e
    | .ok (pool2, heap2) =>
      match Destroy pool2 heap2 with
      | .error e => .error e
      | .ok heap3 => .ok heap3.live

/-! ## Regions, the allocator contract and reachable states -/

/-- Two byte ranges `(base, length)` do not overlap. -/
def Separated (x y : Nat × Nat) : Prop :=
  x.1 + x.2 ≤ y.1 ∨ y.1 + y.2 ≤ x.1

instance (x y : Nat × Nat) : Decidable (Separated x y) := by
  unfold Separated; infer_instance

/-- Block size of class `c`: the value of `block_size` in `Malloc`. -/
def blockSize (c : Nat) : Nat := (c + 1) * BLOCK_SIZE_MIN

/-- Number of blocks per slab of class `c`: the value of `block_num`. -/
def blockNum (c : Nat) : Nat := BLOCK_SIZE_MAX / blockSize c

/-- Byte count of one slab of class `c`: `block_size * block_num`. -/
def slabSize (c : Nat) : Nat := blockSize c * blockNum c

/-- Usable length of a region acquired with request `size`: the request itself
on the overflow path, the block size of its class otherwise. -/
def usable (size : Nat) : Nat :=
  if size > BLOCK_SIZE_MAX then size else blockSize (classIndex size).toNat

/-- Byte range of an outstanding region recorded as `(address, request)`. -/
def extent (r : Nat × Nat) : Nat × Nat := (r.1, usable r.2)

/-- Byte ranges of the records chained under one class entry. -/
def chainRegions (c : Nat) : Option (List Block) → List (Nat × Nat)
  | none => []
  | some chain => chain.map (fun b => (b.ptr, blockSize c))

/-- Byte ranges of all records on the free lists, the first entry being
class `c`. -/
def freeRegionsFrom : Nat → List (Option (List Block)) → List (Nat × Nat)
  | _, [] => []
  | c, head :: heads => chainRegions c head ++ freeRegionsFrom (c + 1) heads

/-- Byte ranges of all records on the free lists of a pool. -/
def freeRegions (pool : MemoryPool) : List (Nat × Nat) :=
  freeRegionsFrom 0 pool.block_list

/-- Removing the first occurrence of `x` from a list of outstanding regions. -/
def removeOne (x : Nat × Nat) : List (Nat × Nat) → List (Nat × Nat)
  | [] => []
  | y :: ys => if y = x then ys else y :: removeOne x ys

/-- Contract of the underlying `malloc`: whatever byte count is requested, the
answer is null or a range that overlaps no live allocation. -/
def AnswerOk (heap : Heap) (sys : Nat → Nat) : Prop :=
  ∀ n, sys n = 0 ∨ ∀ b ∈ heap.live, Separated (sys n, n) b

/-- Pool states reachable from `Init` by calls that obey the caller contract,
together with the regions currently held by callers as `(address, request
size)`.  `Free` is only passed a region that is outstanding, with the size it
was acquired with; callers may overwrite memory between calls. -/
inductive Reachable : MemoryPool → Heap → List (Nat × Nat) → Prop
  | init (pool : MemoryPool) (heap : Heap) (hsep : heap.live.Pairwise Separated) :
      Reachable (Init pool) heap []
  | malloc {pool : MemoryPool} {heap : Heap} {out : List (Nat × Nat)}
      (sys : Nat → Nat) (size ptr : Nat) (pool1 : MemoryPool) (heap1 : Heap)
      (hr : Reachable pool heap out) (hsys : AnswerOk heap sys)
      (hm : Malloc sys pool heap size = .ok (ptr, pool1, heap1)) :
      Reachable pool1 heap1 ((ptr, size) :: out)
  | free {pool : MemoryPool} {heap : Heap} {out : List (Nat × Nat)}
      (ptr size : Nat) (pool1 : MemoryPool) (heap1 : Heap)
      (hr : Reachable pool heap out) (hout : (ptr, size) ∈ out)
      (hf : Free pool heap ptr size = .ok (pool1, heap1)) :
      Reachable pool1 heap1 (removeOne (ptr, size) out)
  | write {pool : MemoryPool} {heap : Heap} {out : List (Nat × Nat)}
      (mem1 : Nat → Nat) (hr : Reachable pool heap out) :
      Reachable pool { heap with mem := mem1 } out

/-- Running a list of `Malloc` calls, each with its own allocator answer;
returns the addresses handed out. -/
def mallocMany : List ((Nat → Nat) × Nat) → MemoryPool → Heap →
    Except Fault (List Nat × MemoryPool × Heap)
  | [], pool, heap => .ok ([], pool, heap)
  | (sys, size) :: calls, pool, heap =>
    match Malloc sys pool heap size with
    | .error e => .error e
    | .ok (p, pool1, heap1) =>
      match mallocMany calls pool1 heap1 with
      | .error e => .error e
      | .ok (ps, pool2, heap2) => .ok (p :: ps, pool2, heap2)

/-- Records of the first `k` slices of a class-`c` slab at `a`, highest offset
first. -/
def slabChain (a c k : Nat) : List Block :=
  ((List.range k).map
    (fun i => ({ ptr := a + i * blockSize c, size := blockSize c } : Block))).reverse

/-- A byte range is backed by the heap: an overflow range is itself a live
allocation, a block range lies inside a live slab of its class. -/
def Backed (heap : Heap) (r : Nat × Nat) : Prop :=
  0 < r.2 ∧
  if BLOCK_SIZE_MAX < r.2 then r ∈ heap.live
  else ∃ a ∈ heap.live, a.2 = r.2 * (BLOCK_SIZE_MAX / r.2) ∧ a.1 ≤ r.1 ∧ r.1 + r.2 ≤ a.1 + a.2

/-- The invariant of reachable states. -/
structure Inv (pool : MemoryPool) (heap : Heap) (out : List (Nat × Nat)) : Prop where
  len : pool.block_list.length = 64
  liveSep : heap.live.Pairwise Separated
  regSep : (freeRegions pool ++ out.map extent).Pairwise Separated
  backed : ∀ r ∈ freeRegions pool ++ out.map extent, Backed heap r

/-! ## Concrete states used as witnesses -/

/-- The pool after `Malloc(15)` on the initialised pool of `Test`, the slab
being at address 1000. -/
def pool15 : MemoryPool :=
  { pool0 with block_list := (Init pool0).block_list.set 1 (some (slabChain 1000 1 31)) }

/-- The heap after `Malloc(15)`: one live slab of 512 zeroed bytes at 1000. -/
def heap15 : Heap :=
  { live := [(1000, 512)],
    mem := fun a => if 1000 ≤ a ∧ a < 1000 + 512 then 0 else heap0.mem a }

/-- A heap holding the slab of `heap15` and one 600-byte overflow allocation
at 5000. -/
def heap600 : Heap :=
  { live := [(5000, 600), (1000, 512)], mem := fun _ => 0 }

/-- The pool after `Malloc(15)` and `Malloc(9)` on the initialised pool: 30
records left on class 1. -/
def pool15b : MemoryPool :=
  { pool15 with block_list := pool15.block_list.set 1 (some (slabChain 1000 1 30)) }

/-- The pool after `Malloc(15)`, `Malloc(9)` and `Free(1496, 15)`: the released
block is first on class 1. -/
def pool15c : MemoryPool :=
  { pool15b with
      block_list := pool15b.block_list.set 1
        (some ({ ptr := 1496, size := 15 } :: slabChain 1000 1 30)) }

/-- The heap after `Malloc(15)`, `Malloc(9)` and `Free(1496, 15)`. -/
def heap15c : Heap :=
  { live := heap15.live,
    mem := fun a => if 1496 ≤ a ∧ a < 1496 + 15 then 0 else heap15.mem a }

/-- The heap after a further `Malloc(600)` answered at 5000. -/
def heap15d : Heap :=
  { live := (5000, 600) :: heap15c.live,
    mem := fun a => if 5000 ≤ a ∧ a < 5000 + 600 then 0 else heap15c.mem a }

/-- The pool after `Malloc(8)` on the initialised pool, the slab being at
3000: class 0 has a head, class 1 has none. -/
def pool8 : MemoryPool :=
  { pool0 with block_list := (Init pool0).block_list.set 0 (some (slabChain 3000 0 63)) }

/-- The heap after `Malloc(8)`: one live slab of 512 zeroed bytes at 3000. -/
def heap8 : Heap :=
  { live := [(3000, 512)],
    mem := fun a => if 3000 ≤ a ∧ a < 3000 + 512 then 0 else heap0.mem a }

/-- Length of the chain under a class entry (a null head has no chain). -/
def chainLen : Option (List Block) → Nat
  | none => 0
  | some chain => chain.length

/-- A pool record whose two size fields violate every constraint of the
configuration (neither is positive). -/
def badPool : MemoryPool :=
  { block_size_min := 0, block_size_max := 0, block_list := [] }

/-! ## Arbitrary call sequences and classes without a `Malloc` -/

/-- States that follow a given state after any number of returning `Malloc` and
`Free` calls, with arbitrary arguments and allocator answers, and caller
writes. -/
inductive Later : MemoryPool → Heap → MemoryPool → Heap → Prop
  | refl (pool : MemoryPool) (heap : Heap) : Later pool heap pool heap
  | malloc {pool0 : MemoryPool} {heap0 : Heap} {pool : MemoryPool} {heap : Heap}
      (sys : Nat → Nat) (size ptr : Nat) (pool1 : MemoryPool) (heap1 : Heap)
      (hl : Later pool0 heap0 pool heap)
      (hm : Malloc sys pool heap size = .ok (ptr, pool1, heap1)) :
      Later pool0 heap0 pool1 heap1
  | free {pool0 : MemoryPool} {heap0 : Heap} {pool : MemoryPool} {heap : Heap}
      (ptr size : Nat) (pool1 : MemoryPool) (heap1 : Heap)
      (hl : Later pool0 heap0 pool heap)
      (hf : Free pool heap ptr size = .ok (pool1, heap1)) :
      Later pool0 heap0 pool1 heap1
  | write {pool0 : MemoryPool} {heap0 : Heap} {pool : MemoryPool} {heap : Heap}
      (mem1 : Nat → Nat) (hl : Later pool0 heap0 pool heap) :
      Later pool0 heap0 pool { heap with mem := mem1 }

/-- States reached from `Init` by returning `Malloc` and `Free` calls and caller
writes in which no `Malloc` call had a size of class `c`. -/
inductive NoMallocOf (c : Nat) : MemoryPool → Heap → Prop
  | init (pool : MemoryPool) (heap : Heap) : NoMallocOf c (Init pool) heap
  | malloc {pool : MemoryPool} {heap : Heap}
      (sys : Nat → Nat) (size ptr : Nat) (pool1 : MemoryPool) (heap1 : Heap)
      (hr : NoMallocOf c pool heap)
      (hother : BLOCK_SIZE_MAX < size ∨ classIndex size ≠ (c : Int))
      (hm : Malloc sys pool heap size = .ok (ptr, pool1, heap1)) :
      NoMallocOf c pool1 heap1
  | free {pool : MemoryPool} {heap : Heap}
      (ptr size : Nat) (pool1 : MemoryPool) (heap1 : Heap)
      (hr : NoMallocOf c pool heap)
      (hf : Free pool heap ptr size = .ok (pool1, heap1)) :
      NoMallocOf c pool1 heap1
  | write {pool : MemoryPool} {heap : Heap}
      (mem1 : Nat → Nat) (hr : NoMallocOf c pool heap) :
      NoMallocOf c pool { heap with mem := mem1 }

/-! ## The uniform-block pool (`mem_pool_simple.cpp`) -/

namespace Simple

/-- Record `MemoryPool` of `mem_pool_simple.cpp`: the backing region, the block
size, and the vector of free blocks (its back is the last element). -/
structure MemoryPool where
  data : Nat
  block_size : Nat
  free_blocks : List Nat
deriving DecidableEq, Repr

/-- `init_memory_pool(pool, block_size, num_blocks)`: one `malloc` of
`block_size * num_blocks` bytes (a `size_t` product), then `push_back` of
`data + i * block_size` for `i = 0 .. num_blocks - 1`; the offset is a `size_t`
product and the `char*` addition is 64-bit, so both are taken modulo `2^64`. -/
def init_memory_pool (sys : Nat → Nat) (pool : MemoryPool) (heap : Heap)
    (block_size num_blocks : Nat) : MemoryPool × Heap :=
  let (data, heap1) := sysMalloc heap ((block_size * num_blocks) % 2 ^ 64)
    (sys ((block_size * num_blocks) % 2 ^ 64))
  ({ data := data, block_size := block_size,
     free_blocks := (List.range num_blocks).foldl
       (fun v i => v ++ [(data + (i * block_size) % 2 ^ 64) % 2 ^ 64]) pool.free_blocks },
   heap1)

/-- `allocate_memory_block(pool)`: null when the vector is empty, otherwise its
back, which is popped. -/
def allocate_memory_block (pool : MemoryPool) : Nat × MemoryPool :=
  match pool.free_blocks.getLast? with
  | none => (0, pool)
  | some block => (block, { pool with free_blocks := pool.free_blocks.dropLast })

/-- `deallocate_memory_block(pool, block)`: `push_back(block)`. -/
def deallocate_memory_block (pool : MemoryPool) (block : Nat) : MemoryPool :=
  { pool with free_blocks := pool.free_blocks ++ [block] }

/-- Running `k` calls of `allocate_memory_block`; returns the results in call
order. -/
def allocateMany : Nat → MemoryPool → List Nat × MemoryPool
  | 0, pool => ([], pool)
  | k + 1, pool =>
    let (block, pool1) := allocate_memory_block pool
    let (blocks, pool2) := allocateMany k pool1
    (block :: blocks, pool2)

/-- A pool record whose vector of free blocks is empty. -/
def emptyPool : MemoryPool := { data := 0, block_size := 0, free_blocks := [] }

end Simple

/-! # Theorems -/

/-! ## Supporting lemmas -/

/-- On `1 ≤ size ≤ 512` the index is the natural number `(size + 7) / 8 - 1`. -/
theorem classIndex_eq (size : Nat) (h1 : 1 ≤ size) (h2 : size ≤ 512) :
    classIndex size = (((size + 7) / 8 - 1 : Nat) : Int) := by
  unfold classIndex toInt32 BLOCK_SIZE_MIN
  simp only []
  split_ifs <;> omega

/-- Non-overlap is symmetric. -/
theorem separated_symm {x y : Nat × Nat} (h : Separated x y) : Separated y x := by
  unfold Separated at *; omega

/-- The carving loop pushes the slices in increasing offset, so the chain lists
them in decreasing offset. -/
theorem carve_eq (p bs n : Nat) (l : List Block) :
    carve p bs n l =
      ((List.range n).map (fun i => ({ ptr := p + i * bs, size := bs } : Block))).reverse ++ l := by
  unfold carve
  induction n with
  | zero => simp
  | succ n ih => simp [List.range_succ, List.foldl_append, ih]

/-- Block sizes are positive. -/
theorem blockSize_pos (c : Nat) : 0 < blockSize c := by
  unfold blockSize BLOCK_SIZE_MIN; omega

/-- Block sizes of the 64 classes are at most 512. -/
theorem blockSize_le (c : Nat) (hc : c < 64) : blockSize c ≤ 512 := by
  unfold blockSize BLOCK_SIZE_MIN; omega

/-- Every class below 64 has at least one block per slab. -/
theorem blockNum_pos (c : Nat) (hc : c < 64) : 1 ≤ blockNum c := by
  unfold blockNum BLOCK_SIZE_MAX
  exact (Nat.one_le_div_iff (blockSize_pos c)).2 (blockSize_le c hc)

/-- A slab is at most 512 bytes. -/
theorem slabSize_le (c : Nat) : slabSize c ≤ 512 := by
  unfold slabSize blockNum BLOCK_SIZE_MAX
  exact Nat.mul_div_le 512 (blockSize c)

/-- A slab of a class below 64 is not empty. -/
theorem slabSize_pos (c : Nat) (hc : c < 64) : 0 < slabSize c := by
  unfold slabSize
  exact Nat.mul_pos (blockSize_pos c) (blockNum_pos c hc)

/-- The natural-number class of a request. -/
theorem classIndex_toNat (size : Nat) (h1 : 1 ≤ size) (h2 : size ≤ 512) :
    (classIndex size).toNat = (size + 7) / 8 - 1 := by
  rw [classIndex_eq size h1 h2]; simp

/-- Reading the entry of a non-negative index. -/
theorem lookup_natCast (pool : MemoryPool) (c : Nat) :
    lookup pool (c : Int) =
      match pool.block_list[c]? with
      | none => .error (.outOfBounds c)
      | some head => .ok head := by
  unfold lookup
  have : ¬ ((c : Int) < 0) := by omega
  simp [this]

/-- The overflow path of `Malloc` as an equation. -/
theorem Malloc_overflow (sys : Nat → Nat) (pool : MemoryPool) (heap : Heap) (size : Nat)
    (h : BLOCK_SIZE_MAX < size) :
    Malloc sys pool heap size =
      if sys size = 0 then .error .nullDeref
      else .ok (sys size, pool,
        { live := (sys size, size) :: heap.live,
          mem := fun a => if sys size ≤ a ∧ a < sys size + size then 0 else heap.mem a }) := by
  by_cases h0 : sys size = 0 <;> simp [Malloc, sysMalloc, memset, h, h0]

/-- The path of `Malloc` through a non-empty chain: the first record is popped. -/
theorem Malloc_pop (sys : Nat → Nat) (pool : MemoryPool) (heap : Heap) (size c : Nat)
    (b : Block) (rest : List Block)
    (hs : size ≤ BLOCK_SIZE_MAX) (hc : classIndex size = (c : Int))
    (hl : pool.block_list[c]? = some (some (b :: rest))) :
    Malloc sys pool heap size =
      .ok (b.ptr, { pool with block_list := pool.block_list.set c (some rest) }, heap) := by
  unfold Malloc
  have : ¬ size > BLOCK_SIZE_MAX := by omega
  simp only [this, if_false, hc, lookup_natCast, hl, Int.toNat_ofNat]

/-- The path of `Malloc` through an empty list: a slab is requested, cleared,
carved, and the record of the highest slice is popped. -/
theorem Malloc_provision (sys : Nat → Nat) (pool : MemoryPool) (heap : Heap) (size c : Nat)
    (head : Option (List Block))
    (hs : size ≤ BLOCK_SIZE_MAX) (hc : classIndex size = (c : Int)) (hc64 : c < 64)
    (hl : pool.block_list[c]? = some head) (hempty : head = none ∨ head = some []) :
    Malloc sys pool heap size =
      if sys (slabSize c) = 0 then .error .nullDeref
      else .ok (sys (slabSize c) + (blockNum c - 1) * blockSize c,
        { pool with
            block_list := pool.block_list.set c
              (some (slabChain (sys (slabSize c)) c (blockNum c - 1))) },
        { live := (sys (slabSize c), slabSize c) :: heap.live,
          mem := fun a => if sys (slabSize c) ≤ a ∧ a < sys (slabSize c) + slabSize c then 0
            else heap.mem a }) := by
  have hn := blockNum_pos c hc64
  obtain ⟨n, hn1⟩ : ∃ n, blockNum c = n + 1 := ⟨blockNum c - 1, by omega⟩
  have hbs : ((c : Int) + 1).toNat * BLOCK_SIZE_MIN = blockSize c := by
    unfold blockSize
    have : ((c : Int) + 1).toNat = c + 1 := by omega
    rw [this]
  have hbn : BLOCK_SIZE_MAX / blockSize c = blockNum c := rfl
  have hss : blockSize c * blockNum c = slabSize c := rfl
  unfold Malloc
  have : ¬ size > BLOCK_SIZE_MAX := by omega
  simp only [this, if_false, hc, lookup_natCast, hl, Int.toNat_ofNat]
  rcases hempty with rfl | rfl
  all_goals
    simp only [hbs, hbn, hss]
    by_cases h0 : sys (slabSize c) = 0
    · simp [h0, sysMalloc, memset]
    · simp [h0, sysMalloc, memset, carve_eq, hn1, List.range_succ, slabChain]

/-- Replacing one class entry exchanges its ranges in the list of all ranges. -/
theorem freeRegionsFrom_set (k i : Nat) (bl : List (Option (List Block)))
    (old new : Option (List Block)) (h : bl[i]? = some old) :
    (chainRegions (k + i) old ++ freeRegionsFrom k (bl.set i new)).Perm
      (chainRegions (k + i) new ++ freeRegionsFrom k bl) := by
  induction bl generalizing k i with
  | nil => simp at h
  | cons hd tl ih =>
    cases i with
    | zero =>
      simp only [List.getElem?_cons_zero, Option.some.injEq] at h
      subst h
      simp only [List.set_cons_zero, freeRegionsFrom, Nat.add_zero]
      rw [← List.append_assoc, ← List.append_assoc]
      exact List.Perm.append_right _ List.perm_append_comm
    | succ i =>
      simp only [List.getElem?_cons_succ] at h
      have ih1 := ih (k + 1) i h
      have e : k + 1 + i = k + (i + 1) := by omega
      rw [e] at ih1
      simp only [List.set_cons_succ, freeRegionsFrom]
      have swap : ∀ (x y z : List (Nat × Nat)), (x ++ (y ++ z)).Perm (y ++ (x ++ z)) := by
        intro x y z
        rw [← List.append_assoc, ← List.append_assoc]
        exact List.Perm.append_right _ List.perm_append_comm
      exact ((swap _ _ _).trans (List.Perm.append_left _ ih1)).trans (swap _ _ _)

/-- Popping the first record of class `c` removes its range. -/
theorem freeRegions_pop (pool : MemoryPool) (c : Nat) (b : Block) (rest : List Block)
    (h : pool.block_list[c]? = some (some (b :: rest))) :
    (freeRegions pool).Perm
      ((b.ptr, blockSize c) ::
        freeRegions { pool with block_list := pool.block_list.set c (some rest) }) := by
  have hp := freeRegionsFrom_set 0 c pool.block_list _ (some rest) h
  simp only [Nat.zero_add, chainRegions, List.map_cons, List.cons_append] at hp
  have hp2 := (List.perm_middle.trans hp)
  exact ((List.perm_append_left_iff _).1 hp2).symm

/-- Pushing a record on class `c` adds its range. -/
theorem freeRegions_push (pool : MemoryPool) (c : Nat) (b : Block) (chain : List Block)
    (h : pool.block_list[c]? = some (some chain)) :
    (freeRegions { pool with block_list := pool.block_list.set c (some (b :: chain)) }).Perm
      ((b.ptr, blockSize c) :: freeRegions pool) := by
  have hp := freeRegionsFrom_set 0 c pool.block_list _ (some (b :: chain)) h
  simp only [Nat.zero_add, chainRegions, List.map_cons, List.cons_append] at hp
  have hp2 := hp.trans List.perm_middle.symm
  exact (List.perm_append_left_iff _).1 hp2

/-- Filling an empty class list adds the ranges of the new chain. -/
theorem freeRegions_fill (pool : MemoryPool) (c : Nat) (head : Option (List Block))
    (chain : List Block) (h : pool.block_list[c]? = some head)
    (hempty : head = none ∨ head = some []) :
    (freeRegions { pool with block_list := pool.block_list.set c (some chain) }).Perm
      (chain.map (fun b => (b.ptr, blockSize c)) ++ freeRegions pool) := by
  have hp := freeRegionsFrom_set 0 c pool.block_list _ (some chain) h
  rcases hempty with rfl | rfl <;>
    simpa only [Nat.zero_add, chainRegions, List.map_nil, List.nil_append] using hp

/-- The ranges on the free lists are those of one class followed by those of
the pool with that class emptied. -/
theorem freeRegions_split (pool : MemoryPool) (c : Nat) (head : Option (List Block))
    (h : pool.block_list[c]? = some head) :
    (freeRegions pool).Perm
      (chainRegions c head ++
        freeRegions { pool with block_list := pool.block_list.set c none }) := by
  have hp := freeRegionsFrom_set 0 c pool.block_list head none h
  simp only [Nat.zero_add, chainRegions, List.nil_append] at hp
  exact hp.symm

/-- The range of every chained record is listed. -/
theorem mem_freeRegionsFrom (k c : Nat) (bl : List (Option (List Block)))
    (chain : List Block) (b : Block) (h : bl[c]? = some (some chain)) (hb : b ∈ chain) :
    (b.ptr, blockSize (k + c)) ∈ freeRegionsFrom k bl := by
  induction bl generalizing k c with
  | nil => simp at h
  | cons hd tl ih =>
    cases c with
    | zero =>
      simp only [List.getElem?_cons_zero, Option.some.injEq] at h
      subst h
      simp only [freeRegionsFrom, List.mem_append, chainRegions, List.mem_map, Nat.add_zero]
      exact Or.inl ⟨b, hb, rfl⟩
    | succ c =>
      simp only [List.getElem?_cons_succ] at h
      have := ih (k + 1) c h
      have e : k + 1 + c = k + (c + 1) := by omega
      rw [e] at this
      simp only [freeRegionsFrom, List.mem_append]
      exact Or.inr this

/-- A request of class `c` is served by a block of that class. -/
theorem usable_small (size c : Nat) (hs : size ≤ BLOCK_SIZE_MAX) (hc : classIndex size = (c : Int)) :
    usable size = blockSize c := by
  unfold usable
  have : ¬ size > BLOCK_SIZE_MAX := by omega
  simp [this, hc]

/-- An overflow request is served by exactly its size. -/
theorem usable_overflow (size : Nat) (hs : BLOCK_SIZE_MAX < size) : usable size = size := by
  unfold usable; simp [hs]

/-- Backing survives when the live allocations only grow. -/
theorem Backed.mono {heap heap1 : Heap} {r : Nat × Nat} (h : Backed heap r)
    (hsub : ∀ a ∈ heap.live, a ∈ heap1.live) : Backed heap1 r := by
  unfold Backed at *
  refine ⟨h.1, ?_⟩
  have h2 := h.2
  split_ifs with hbig
  · rw [if_pos hbig] at h2; exact hsub _ h2
  · rw [if_neg hbig] at h2
    obtain ⟨a, ha, hrest⟩ := h2
    exact ⟨a, hsub a ha, hrest⟩

/-- A range separated from every live allocation is separated from every
backed range. -/
theorem separated_of_backed {heap : Heap} {x r : Nat × Nat} (hr : Backed heap r)
    (hx : ∀ b ∈ heap.live, Separated x b) : Separated x r := by
  unfold Backed at hr
  have h2 := hr.2
  split_ifs at h2 with hbig
  · exact hx r h2
  · obtain ⟨a, ha, _, h3, h4⟩ := h2
    have := hx a ha
    unfold Separated at *
    omega

/-- A successful read names an entry of the array. -/
theorem lookup_ok {pool : MemoryPool} {index : Int} {head : Option (List Block)}
    (h : lookup pool index = .ok head) :
    ∃ c : Nat, index = (c : Int) ∧ pool.block_list[c]? = some head := by
  unfold lookup at h
  split_ifs at h with hneg
  refine ⟨index.toNat, by omega, ?_⟩
  cases hget : pool.block_list[index.toNat]? with
  | none => rw [hget] at h; simp at h
  | some hd =>
    rw [hget] at h
    simp only [Except.ok.injEq] at h
    rw [h]

/-- A `Malloc` of at most 512 bytes that returns has read an entry of the array. -/
theorem Malloc_ok_class {sys : Nat → Nat} {pool : MemoryPool} {heap : Heap} {size : Nat}
    {res : Nat × MemoryPool × Heap}
    (hm : Malloc sys pool heap size = .ok res) (hs : size ≤ BLOCK_SIZE_MAX) :
    ∃ (c : Nat) (head : Option (List Block)),
      classIndex size = (c : Int) ∧ pool.block_list[c]? = some head := by
  cases hl : lookup pool (classIndex size) with
  | error e =>
    unfold Malloc at hm
    have : ¬ size > BLOCK_SIZE_MAX := by omega
    simp [this, hl] at hm
  | ok head =>
    obtain ⟨c, hc, hget⟩ := lookup_ok hl
    exact ⟨c, head, hc, hget⟩

/-- The overflow path of `Free` as an equation. -/
theorem Free_overflow (pool : MemoryPool) (heap : Heap) (ptr size : Nat)
    (h : BLOCK_SIZE_MAX < size) :
    Free pool heap ptr size =
      match sysFree heap ptr with
      | .error e => .error e
      | .ok heap1 => .ok (pool, heap1) := by
  unfold Free
  simp [h]

/-- The class path of `Free` on an existing head as an equation. -/
theorem Free_small (pool : MemoryPool) (heap : Heap) (ptr size c : Nat) (chain : List Block)
    (hs : size ≤ BLOCK_SIZE_MAX) (hc : classIndex size = (c : Int))
    (hl : pool.block_list[c]? = some (some chain)) :
    Free pool heap ptr size =
      if ptr = 0 then .error .nullDeref
      else .ok ({ pool with
                  block_list := pool.block_list.set c (some ({ ptr := ptr, size := size } :: chain)) },
                { live := heap.live,
                  mem := fun a => if ptr ≤ a ∧ a < ptr + size then 0 else heap.mem a }) := by
  unfold Free
  have : ¬ size > BLOCK_SIZE_MAX := by omega
  by_cases h0 : ptr = 0 <;> simp [this, hc, lookup_natCast, hl, memset, h0]

/-- A `Free` of at most 512 bytes that returns has pushed one record on the chain
of its class and left the live allocations alone. -/
theorem Free_ok_class {pool pool1 : MemoryPool} {heap heap1 : Heap} {ptr size : Nat}
    (hf : Free pool heap ptr size = .ok (pool1, heap1)) (hs : size ≤ BLOCK_SIZE_MAX) :
    ∃ (c : Nat) (chain : List Block),
      classIndex size = (c : Int) ∧ pool.block_list[c]? = some (some chain) ∧
      pool1 = { pool with
                block_list := pool.block_list.set c (some ({ ptr := ptr, size := size } :: chain)) } ∧
      heap1.live = heap.live := by
  have hns : ¬ size > BLOCK_SIZE_MAX := by omega
  cases hl : lookup pool (classIndex size) with
  | error e =>
    unfold Free at hf
    simp [hns, hl] at hf
  | ok head =>
    obtain ⟨c, hc, hget⟩ := lookup_ok hl
    cases head with
    | none =>
      unfold Free at hf
      simp [hns, hl] at hf
    | some chain =>
      rw [Free_small pool heap ptr size c chain hs hc hget] at hf
      split_ifs at hf with h0
      simp only [Except.ok.injEq, Prod.mk.injEq] at hf
      exact ⟨c, chain, hc, hget, hf.1.symm, by rw [← hf.2]⟩

/-- The invariant follows from the same facts about a rearrangement of the
ranges. -/
theorem Inv.of_perm {pool pool1 : MemoryPool} {heap1 : Heap} {out1 : List (Nat × Nat)}
    (R : List (Nat × Nat))
    (hlen : pool1.block_list.length = pool.block_list.length)
    (hlen0 : pool.block_list.length = 64)
    (hlive : heap1.live.Pairwise Separated)
    (hperm : (freeRegions pool1 ++ out1.map extent).Perm R)
    (hsep : R.Pairwise Separated) (hback : ∀ r ∈ R, Backed heap1 r) :
    Inv pool1 heap1 out1 where
  len := by rw [hlen, hlen0]
  liveSep := hlive
  regSep := (hperm.pairwise_iff (fun h => separated_symm h)).2 hsep
  backed := fun r hr => hback r (hperm.mem_iff.1 hr)

/-- The invariant holds after `Init`. -/
theorem inv_init (pool : MemoryPool) (heap : Heap) (hsep : heap.live.Pairwise Separated) :
    Inv (Init pool) heap [] where
  len := rfl
  liveSep := hsep
  regSep := by
    have : freeRegions (Init pool) = [] := rfl
    simp [this]
  backed := by
    have : freeRegions (Init pool) = [] := rfl
    simp [this]

/-- Byte ranges of the slices of a class-`c` slab at `a`. -/
theorem slabChain_regions (a c k : Nat) :
    (slabChain a c k).map (fun b => (b.ptr, blockSize c)) =
      ((List.range k).map (fun i => (a + i * blockSize c, blockSize c))).reverse := by
  unfold slabChain
  simp [List.map_reverse, Function.comp_def]

/-- The slices of a slab do not overlap each other. -/
theorem slices_pairwise (a bs n : Nat) :
    (((List.range n).map (fun i => (a + i * bs, bs))).reverse).Pairwise Separated := by
  rw [List.pairwise_reverse, List.pairwise_map]
  refine (List.pairwise_lt_range n).imp ?_
  intro i j hij
  unfold Separated
  right
  have : (i + 1) * bs ≤ j * bs := Nat.mul_le_mul_right bs hij
  simp only [Nat.add_mul, Nat.one_mul] at this
  simp only
  omega

/-- Every slice of a slab has the block size and lies inside the slab. -/
theorem slices_inside (a bs n : Nat) (r : Nat × Nat)
    (hr : r ∈ ((List.range n).map (fun i => (a + i * bs, bs))).reverse) :
    r.2 = bs ∧ a ≤ r.1 ∧ r.1 + r.2 ≤ a + bs * n := by
  simp only [List.mem_reverse, List.mem_map, List.mem_range] at hr
  obtain ⟨i, hi, rfl⟩ := hr
  have : (i + 1) * bs ≤ n * bs := Nat.mul_le_mul_right bs hi
  simp only [Nat.add_mul, Nat.one_mul] at this
  rw [Nat.mul_comm bs n]
  refine ⟨rfl, Nat.le_add_right _ _, ?_⟩
  show a + i * bs + bs ≤ a + n * bs
  omega

/-- The invariant is preserved by `Malloc` when the allocator keeps its contract. -/
theorem inv_malloc {pool pool1 : MemoryPool} {heap heap1 : Heap} {out : List (Nat × Nat)}
    {sys : Nat → Nat} {size ptr : Nat}
    (hinv : Inv pool heap out) (hsys : AnswerOk heap sys)
    (hm : Malloc sys pool heap size = .ok (ptr, pool1, heap1)) :
    Inv pool1 heap1 ((ptr, size) :: out) := by
  by_cases hbig : BLOCK_SIZE_MAX < size
  · -- overflow path
    rw [Malloc_overflow sys pool heap size hbig] at hm
    split_ifs at hm with h0
    simp only [Except.ok.injEq, Prod.mk.injEq] at hm
    obtain ⟨rfl, rfl, rfl⟩ := hm
    have hfresh : ∀ b ∈ heap.live, Separated (sys size, size) b := by
      rcases hsys size with h | h
      · exact absurd h h0
      · exact h
    refine Inv.of_perm ((sys size, size) :: (freeRegions pool ++ out.map extent)) rfl hinv.len
      (List.pairwise_cons.2 ⟨hfresh, hinv.liveSep⟩) ?_ ?_ ?_
    · simp only [List.map_cons, extent, usable_overflow size hbig]
      exact List.perm_middle
    · exact List.pairwise_cons.2
        ⟨fun r hr => separated_of_backed (hinv.backed r hr) hfresh, hinv.regSep⟩
    · intro r hr
      rcases List.mem_cons.1 hr with rfl | hr
      · refine ⟨by unfold BLOCK_SIZE_MAX at hbig; simp only; omega, ?_⟩
        simp [hbig]
      · exact (hinv.backed r hr).mono (fun a ha => List.mem_cons_of_mem _ ha)
  · -- class path
    have hs : size ≤ BLOCK_SIZE_MAX := by omega
    obtain ⟨c, head, hc, hget⟩ := Malloc_ok_class hm hs
    have hc64 : c < 64 := by
      have := (List.getElem?_eq_some_iff.1 hget).1
      rw [hinv.len] at this; exact this
    have hext : extent (ptr, size) = (ptr, blockSize c) := by
      simp only [extent, usable_small size c hs hc]
    have hchain : (∃ b rest, head = some (b :: rest)) ∨ head = none ∨ head = some [] := by
      rcases head with _ | _ | ⟨b, rest⟩
      · exact Or.inr (Or.inl rfl)
      · exact Or.inr (Or.inr rfl)
      · exact Or.inl ⟨b, rest, rfl⟩
    rcases hchain with ⟨b, rest, rfl⟩ | hempty
    · -- a record is popped
      rw [Malloc_pop sys pool heap size c b rest hs hc hget] at hm
      simp only [Except.ok.injEq, Prod.mk.injEq] at hm
      obtain ⟨rfl, rfl, rfl⟩ := hm
      refine Inv.of_perm (freeRegions pool ++ out.map extent) (by simp) hinv.len hinv.liveSep
        ?_ hinv.regSep hinv.backed
      simp only [List.map_cons, hext]
      exact List.perm_middle.trans
        (((freeRegions_pop pool c b rest hget).symm).append_right _)
    · -- a slab is provisioned
      rw [Malloc_provision sys pool heap size c head hs hc hc64 hget hempty] at hm
      split_ifs at hm with h0
      simp only [Except.ok.injEq, Prod.mk.injEq] at hm
      obtain ⟨rfl, rfl, rfl⟩ := hm
      have hfresh : ∀ b ∈ heap.live, Separated (sys (slabSize c), slabSize c) b := by
        rcases hsys (slabSize c) with h | h
        · exact absurd h h0
        · exact h
      have hn := blockNum_pos c hc64
      -- the slices of the new slab
      have hnew : (sys (slabSize c) + (blockNum c - 1) * blockSize c, blockSize c) ::
          (slabChain (sys (slabSize c)) c (blockNum c - 1)).map (fun b => (b.ptr, blockSize c)) =
          ((List.range (blockNum c)).map
            (fun i => (sys (slabSize c) + i * blockSize c, blockSize c))).reverse := by
        rw [slabChain_regions]
        obtain ⟨n, hn1⟩ : ∃ n, blockNum c = n + 1 := ⟨blockNum c - 1, by omega⟩
        simp [hn1, List.range_succ]
      have hin := slices_inside (sys (slabSize c)) (blockSize c) (blockNum c)
      have hcross : ∀ r ∈ ((List.range (blockNum c)).map
            (fun i => (sys (slabSize c) + i * blockSize c, blockSize c))).reverse,
          ∀ r1 ∈ freeRegions pool ++ out.map extent, Separated r r1 := by
        intro r hr r1 hr1
        have h1 := separated_of_backed (hinv.backed r1 hr1) hfresh
        have h2 := hin r hr
        have hss : slabSize c = blockSize c * blockNum c := rfl
        unfold Separated at *
        simp only at h1
        omega
      refine Inv.of_perm (((List.range (blockNum c)).map
            (fun i => (sys (slabSize c) + i * blockSize c, blockSize c))).reverse ++
          (freeRegions pool ++ out.map extent)) (by simp) hinv.len
        (List.pairwise_cons.2 ⟨hfresh, hinv.liveSep⟩) ?_ ?_ ?_
      · rw [← hnew]
        simp only [List.map_cons, hext, List.cons_append]
        refine List.perm_middle.trans (List.Perm.cons _ ?_)
        rw [← List.append_assoc]
        exact (freeRegions_fill pool c head _ hget hempty).append_right _
      · exact List.pairwise_append.2 ⟨slices_pairwise _ _ _, hinv.regSep, hcross⟩
      · intro r hr
        rcases List.mem_append.1 hr with hr | hr
        · have h2 := hin r hr
          refine ⟨by rw [h2.1]; exact blockSize_pos c, ?_⟩
          have hle := blockSize_le c hc64
          have : ¬ BLOCK_SIZE_MAX < r.2 := by rw [h2.1]; unfold BLOCK_SIZE_MAX; omega
          rw [if_neg this]
          refine ⟨(sys (slabSize c), slabSize c), List.mem_cons_self _ _, ?_, h2.2.1, ?_⟩
          · rw [h2.1]; rfl
          · have := h2.2.2; unfold slabSize; simpa using this
        · exact (hinv.backed r hr).mono (fun a ha => List.mem_cons_of_mem _ ha)

/-- A list is a rearrangement of a member followed by the list without it. -/
theorem perm_cons_removeOne (x : Nat × Nat) (l : List (Nat × Nat)) (hx : x ∈ l) :
    l.Perm (x :: removeOne x l) := by
  induction l with
  | nil => simp at hx
  | cons y ys ih =>
    unfold removeOne
    split_ifs with h
    · rw [h]
    · have hx1 : x ∈ ys := by
        rcases List.mem_cons.1 hx with h1 | h1
        · exact absurd h1.symm h
        · exact h1
      exact ((ih hx1).cons y).trans (List.Perm.swap x y _)

/-- Releasing an outstanding region takes its range out of the list of ranges. -/
theorem regions_erase (pool : MemoryPool) (out : List (Nat × Nat)) (x : Nat × Nat)
    (hx : x ∈ out) :
    (freeRegions pool ++ out.map extent).Perm
      (extent x :: (freeRegions pool ++ (removeOne x out).map extent)) := by
  have h1 : (out.map extent).Perm (extent x :: (removeOne x out).map extent) := by
    have := (perm_cons_removeOne x out hx).map extent
    rwa [List.map_cons] at this
  exact (h1.append_left _).trans List.perm_middle

/-- The invariant is preserved by `Free` of an outstanding region with its size. -/
theorem inv_free {pool pool1 : MemoryPool} {heap heap1 : Heap} {out : List (Nat × Nat)}
    {ptr size : Nat}
    (hinv : Inv pool heap out) (hout : (ptr, size) ∈ out)
    (hf : Free pool heap ptr size = .ok (pool1, heap1)) :
    Inv pool1 heap1 (removeOne (ptr, size) out) := by
  have hperm := regions_erase pool out (ptr, size) hout
  have hsep := (hperm.pairwise_iff (fun h => separated_symm h)).1 hinv.regSep
  have hback : ∀ r ∈ extent (ptr, size) :: (freeRegions pool ++ (removeOne (ptr, size) out).map extent),
      Backed heap r := fun r hr => hinv.backed r (hperm.mem_iff.2 hr)
  by_cases hbig : BLOCK_SIZE_MAX < size
  · -- overflow path
    rw [Free_overflow pool heap ptr size hbig] at hf
    have hext : extent (ptr, size) = (ptr, size) := by
      simp only [extent, usable_overflow size hbig]
    rw [hext] at hsep hback
    have hlive : (ptr, size) ∈ heap.live := by
      have := (hback (ptr, size) (List.mem_cons_self _ _)).2
      rwa [if_pos hbig] at this
    unfold sysFree at hf
    split_ifs at hf with h0 hany
    · simp only [Except.ok.injEq, Prod.mk.injEq] at hf
      obtain ⟨rfl, rfl⟩ := hf
      exact Inv.of_perm _ rfl hinv.len hinv.liveSep (List.Perm.refl _)
        (List.pairwise_cons.1 hsep).2 (fun r hr => hback r (List.mem_cons_of_mem _ hr))
    · simp only [Except.ok.injEq, Prod.mk.injEq] at hf
      obtain ⟨rfl, rfl⟩ := hf
      refine Inv.of_perm _ rfl hinv.len (hinv.liveSep.filter _) (List.Perm.refl _)
        (List.pairwise_cons.1 hsep).2 ?_
      intro r hr
      have hb := hback r (List.mem_cons_of_mem _ hr)
      have hs1 := (List.pairwise_cons.1 hsep).1 r hr
      have hkeep : ∀ a ∈ heap.live, a.1 ≠ ptr →
          a ∈ heap.live.filter (fun a => a.1 != ptr) := by
        intro a ha hne
        simp [List.mem_filter, ha, hne]
      unfold Backed at hb ⊢
      refine ⟨hb.1, ?_⟩
      have hb2 := hb.2
      have hpos := hb.1
      split_ifs at hb2 ⊢ with hrbig
      · refine hkeep r hb2 ?_
        unfold Separated at hs1
        unfold BLOCK_SIZE_MAX at hbig
        simp only at hs1
        omega
      · obtain ⟨a, ha, ha2, ha3, ha4⟩ := hb2
        refine ⟨a, hkeep a ha ?_, ha2, ha3, ha4⟩
        intro hbase
        have hale : a.2 ≤ 512 := by
          rw [ha2]; exact Nat.mul_div_le 512 r.2
        have hage : r.2 ≤ a.2 := by omega
        have hne : a ≠ (ptr, size) := by
          intro h
          have : a.2 = size := by rw [h]
          unfold BLOCK_SIZE_MAX at hbig
          omega
        have := hinv.liveSep.forall (fun _ _ h => separated_symm h) ha hlive hne
        unfold Separated at this
        unfold BLOCK_SIZE_MAX at hbig
        simp only at this
        omega
  · -- class path
    have hs : size ≤ BLOCK_SIZE_MAX := by omega
    obtain ⟨c, chain, hc, hget, rfl, hl⟩ := Free_ok_class hf hs
    have hext : extent (ptr, size) = (ptr, blockSize c) := by
      simp only [extent, usable_small size c hs hc]
    rw [hext] at hsep hback
    refine Inv.of_perm _ (by simp) hinv.len (by rw [hl]; exact hinv.liveSep) ?_ hsep ?_
    · exact (freeRegions_push pool c { ptr := ptr, size := size } chain hget).append_right _
    · intro r hr
      exact (hback r hr).mono (fun a ha => by rw [hl]; exact ha)

/-- Every reachable state satisfies the invariant. -/
theorem reachable_inv {pool : MemoryPool} {heap : Heap} {out : List (Nat × Nat)}
    (hr : Reachable pool heap out) : Inv pool heap out := by
  induction hr with
  | init pool heap hsep => exact inv_init pool heap hsep
  | malloc sys size ptr pool1 heap1 _ hsys hm ih => exact inv_malloc ih hsys hm
  | free ptr size pool1 heap1 _ hout hf ih => exact inv_free ih hout hf
  | write mem1 _ ih => exact ⟨ih.len, ih.liveSep, ih.regSep, ih.backed⟩

/-- Any answer keeps the allocator contract on the empty heap. -/
theorem answerOk_heap0 (sys : Nat → Nat) : AnswerOk heap0 sys := by
  intro n; right; intro b hb; simp [heap0] at hb

/-- The state after `Malloc(15)` on the fresh pool is reachable. -/
theorem reachable_pool15 : Reachable pool15 heap15 [(1496, 15)] :=
  Reachable.malloc (fun _ => 1000) 15 1496 pool15 heap15
    (Reachable.init pool0 heap0 List.Pairwise.nil) (answerOk_heap0 _) rfl

/-- The state after `Malloc(15)`, `Malloc(9)`, `Free(1496, 15)` and
`Malloc(600)` is reachable: two regions are outstanding, one of them on the
overflow path, and the released block is back on class 1. -/
theorem reachable_pool15c : Reachable pool15c heap15d [(5000, 600), (1480, 9)] := by
  have h1 : Reachable pool15b heap15 [(1480, 9), (1496, 15)] :=
    Reachable.malloc (fun _ => 0) 9 1480 pool15b heap15 reachable_pool15
      (fun _ => Or.inl rfl) rfl
  have h2 : Reachable pool15c heap15c [(1480, 9)] :=
    Reachable.free 1496 15 pool15c heap15c h1 (by decide) rfl
  have hsys : AnswerOk heap15c (fun _ => 5000) := by
    intro n
    right
    intro b hb
    have hb1 : b = (1000, 512) := by simpa [heap15c, heap15] using hb
    rw [hb1]
    right
    show (1000 : Nat) + 512 ≤ 5000
    decide
  exact Reachable.malloc (fun _ => 5000) 600 5000 pool15c heap15d h2 hsys rfl

/-- The same calls as a sequence following the state after `Malloc(15)`. -/
theorem later_pool15c : Later pool15 heap15 pool15c heap15d :=
  Later.malloc (fun _ => 5000) 600 5000 pool15c heap15d
    (Later.free 1496 15 pool15c heap15c
      (Later.malloc (fun _ => 0) 9 1480 pool15b heap15 (Later.refl pool15 heap15) rfl) rfl)
    rfl

/-- The state after `Malloc(8)` on the fresh pool has seen no `Malloc` of
class 1. -/
theorem noMallocOf_pool8 : NoMallocOf 1 pool8 heap8 :=
  NoMallocOf.malloc (fun _ => 3000) 8 3504 pool8 heap8 (NoMallocOf.init pool0 heap0)
    (Or.inr (by decide)) rfl

/-- Non-empty ranges that do not overlap start at different addresses. -/
theorem separated_ne {x y : Nat × Nat} (h : Separated x y) (hx : 0 < x.2) (hy : 0 < y.2) :
    x.1 ≠ y.1 := by
  unfold Separated at h; omega

/-- The records carved from one slab have pairwise non-overlapping blocks. -/
theorem carve_pairwise (a c : Nat) :
    (carve a (blockSize c) (blockNum c) []).Pairwise
      (fun x y => Separated (x.ptr, blockSize c) (y.ptr, blockSize c)) := by
  have h := slices_pairwise a (blockSize c) (blockNum c)
  rw [carve_eq, List.append_nil]
  rw [← List.map_reverse] at h ⊢
  rw [List.pairwise_map] at h ⊢
  exact h

/-- The block of every record carved from a slab lies inside the slab. -/
theorem carve_inside (a c : Nat) (b : Block)
    (hb : b ∈ carve a (blockSize c) (blockNum c) []) :
    a ≤ b.ptr ∧ b.ptr + blockSize c ≤ a + slabSize c := by
  rw [carve_eq, List.append_nil] at hb
  have h := slices_inside a (blockSize c) (blockNum c) (b.ptr, blockSize c) (by
    simp only [List.mem_reverse, List.mem_map, List.mem_range] at hb ⊢
    obtain ⟨i, hi, rfl⟩ := hb
    exact ⟨i, hi, rfl⟩)
  exact ⟨h.2.1, h.2.2⟩

/-- The chain of `k` slices has `k` records. -/
theorem slabChain_length (a c k : Nat) : (slabChain a c k).length = k := by
  simp [slabChain]

/-- Every record of a carved chain carries the block size. -/
theorem slabChain_size (a c k : Nat) (b : Block) (hb : b ∈ slabChain a c k) :
    b.size = blockSize c := by
  simp only [slabChain, List.mem_reverse, List.mem_map, List.mem_range] at hb
  obtain ⟨i, _, rfl⟩ := hb
  rfl

/-- Consecutive `Malloc` calls of one class, started with `m` records on the
class list: the calls all return and provision one slab per exhaustion. -/
theorem mallocMany_slabs (c : Nat) (hc : c < 64) (calls : List ((Nat → Nat) × Nat))
    (hcalls : ∀ call ∈ calls,
      call.2 ≤ BLOCK_SIZE_MAX ∧ classIndex call.2 = (c : Int) ∧ call.1 (slabSize c) ≠ 0)
    (pool : MemoryPool) (heap : Heap) (head : Option (List Block))
    (hget : pool.block_list[c]? = some head) (hm : chainLen head < blockNum c) :
    ∃ (ptrs : List Nat) (pool1 : MemoryPool) (heap1 : Heap) (slabs : List (Nat × Nat)),
      mallocMany calls pool heap = .ok (ptrs, pool1, heap1) ∧
      ptrs.length = calls.length ∧
      heap1.live = slabs ++ heap.live ∧
      (∀ s ∈ slabs, s.2 = slabSize c) ∧
      slabs.length = (calls.length + blockNum c - 1 - chainLen head) / blockNum c := by
  have hn := blockNum_pos c hc
  induction calls generalizing pool heap head with
  | nil =>
    refine ⟨[], pool, heap, [], rfl, rfl, rfl, by simp, ?_⟩
    have : (([] : List ((Nat → Nat) × Nat)).length + blockNum c - 1 - chainLen head) / blockNum c
        = 0 := by
      apply Nat.div_eq_of_lt
      simp only [List.length_nil]
      omega
    rw [this]; rfl
  | cons call calls ih =>
    obtain ⟨hs, hcls, hsys⟩ := hcalls call (List.mem_cons_self _ _)
    have hrest : ∀ call ∈ calls,
        call.2 ≤ BLOCK_SIZE_MAX ∧ classIndex call.2 = (c : Int) ∧ call.1 (slabSize c) ≠ 0 :=
      fun x hx => hcalls x (List.mem_cons_of_mem _ hx)
    have hlt : c < pool.block_list.length := (List.getElem?_eq_some_iff.1 hget).1
    obtain ⟨sys, size⟩ := call
    simp only at hs hcls hsys
    have hchain : (∃ b rest, head = some (b :: rest)) ∨ head = none ∨ head = some [] := by
      rcases head with _ | _ | ⟨b, rest⟩
      · exact Or.inr (Or.inl rfl)
      · exact Or.inr (Or.inr rfl)
      · exact Or.inl ⟨b, rest, rfl⟩
    rcases hchain with ⟨b, rest, rfl⟩ | hempty
    · -- the list is not empty: a record is popped, no slab is requested
      have hstep := Malloc_pop sys pool heap size c b rest hs hcls hget
      have hget1 : (pool.block_list.set c (some rest))[c]? = some (some rest) := by
        simp [List.getElem?_set_self, hlt]
      simp only [chainLen, List.length_cons] at hm
      obtain ⟨ptrs, pool1, heap1, slabs, hrun, hlen, hlive, hsz, hcount⟩ :=
        ih hrest { pool with block_list := pool.block_list.set c (some rest) } heap (some rest)
          hget1 (by simp only [chainLen]; omega)
      refine ⟨b.ptr :: ptrs, pool1, heap1, slabs, ?_, by simp [hlen], hlive, hsz, ?_⟩
      · simp only [mallocMany, hstep, hrun]
      · rw [hcount]
        simp only [chainLen, List.length_cons]
        congr 1
        omega
    · -- the list is empty: one slab is requested
      have hstep := Malloc_provision sys pool heap size c head hs hcls hc hget hempty
      rw [if_neg hsys] at hstep
      have hget1 : (pool.block_list.set c
          (some (slabChain (sys (slabSize c)) c (blockNum c - 1))))[c]? =
          some (some (slabChain (sys (slabSize c)) c (blockNum c - 1))) := by
        simp [List.getElem?_set_self, hlt]
      have hlen1 : chainLen (some (slabChain (sys (slabSize c)) c (blockNum c - 1))) <
          blockNum c := by
        simp only [chainLen, slabChain_length]; omega
      obtain ⟨ptrs, pool1, heap1, slabs, hrun, hlen, hlive, hsz, hcount⟩ :=
        ih hrest
          { pool with
              block_list := pool.block_list.set c
                (some (slabChain (sys (slabSize c)) c (blockNum c - 1))) }
          { live := (sys (slabSize c), slabSize c) :: heap.live,
            mem := fun a => if sys (slabSize c) ≤ a ∧ a < sys (slabSize c) + slabSize c then 0
              else heap.mem a }
          _ hget1 hlen1
      refine ⟨(sys (slabSize c) + (blockNum c - 1) * blockSize c) :: ptrs, pool1, heap1,
        slabs ++ [(sys (slabSize c), slabSize c)], ?_, by simp [hlen], ?_, ?_, ?_⟩
      · simp only [mallocMany, hstep, hrun]
      · rw [hlive]; simp
      · intro s hs1
        rcases List.mem_append.1 hs1 with h | h
        · exact hsz s h
        · rw [List.mem_singleton.1 h]
      · have h0 : chainLen head = 0 := by rcases hempty with rfl | rfl <;> rfl
        have e0 : chainLen (some (slabChain (sys (slabSize c)) c (blockNum c - 1))) =
            blockNum c - 1 := by
          simp only [chainLen, slabChain_length]
        rw [List.length_append, hcount, h0, e0]
        simp only [List.length_cons, List.length_nil]
        have e1 : calls.length + blockNum c - 1 - (blockNum c - 1) = calls.length := by omega
        have e2 : calls.length + 1 + blockNum c - 1 - 0 = calls.length + blockNum c := by omega
        rw [e1, e2, Nat.add_div_right _ (by omega : 0 < blockNum c)]

/-! ## Supporting lemmas: round trip, pop order, heads -/

/-- Writing back the value an entry already holds changes nothing. -/
theorem set_same {α : Type} (l : List α) (i : Nat) (x : α) (h : l[i]? = some x) :
    l.set i x = l := by
  induction l generalizing i with
  | nil => rfl
  | cons hd tl ih =>
    cases i with
    | zero =>
      simp only [List.getElem?_cons_zero, Option.some.injEq] at h
      rw [List.set_cons_zero, h]
    | succ i =>
      simp only [List.getElem?_cons_succ] at h
      rw [List.set_cons_succ, ih i h]

/-- A `Malloc` of at most 512 bytes that returns has replaced the entry of its
class by an existing head and touched no other entry. -/
theorem Malloc_ok_set {sys : Nat → Nat} {pool pool1 : MemoryPool} {heap heap1 : Heap}
    {size ptr : Nat}
    (hm : Malloc sys pool heap size = .ok (ptr, pool1, heap1)) (hs : size ≤ BLOCK_SIZE_MAX) :
    ∃ (c : Nat) (rest : List Block),
      classIndex size = (c : Int) ∧ c < pool.block_list.length ∧
      pool1 = { pool with block_list := pool.block_list.set c (some rest) } := by
  obtain ⟨c, head, hc, hget⟩ := Malloc_ok_class hm hs
  have hlt : c < pool.block_list.length := (List.getElem?_eq_some_iff.1 hget).1
  have hns : ¬ size > BLOCK_SIZE_MAX := by omega
  unfold Malloc at hm
  simp only [hns, if_false, hc, lookup_natCast, hget, Int.toNat_ofNat] at hm
  split at hm
  · simp at hm
  · simp at hm
  · rename_i block rest heap2 _
    simp only [Except.ok.injEq, Prod.mk.injEq] at hm
    exact ⟨c, rest, hc, hlt, hm.2.1.symm⟩

/-- Consecutive `Malloc` calls of class `c` on a chain that holds at least as
many records as there are calls pop the records in chain order and leave the
heap alone. -/
theorem mallocMany_pops (c : Nat) (calls : List ((Nat → Nat) × Nat))
    (hcalls : ∀ call ∈ calls, call.2 ≤ BLOCK_SIZE_MAX ∧ classIndex call.2 = (c : Int))
    (pool : MemoryPool) (heap : Heap) (chain : List Block)
    (hget : pool.block_list[c]? = some (some chain)) (hlen : calls.length ≤ chain.length) :
    ∃ pool1 : MemoryPool,
      mallocMany calls pool heap =
        .ok ((chain.take calls.length).map (fun b => b.ptr), pool1, heap) ∧
      pool1.block_list[c]? = some (some (chain.drop calls.length)) := by
  induction calls generalizing pool chain with
  | nil => exact ⟨pool, rfl, by simpa using hget⟩
  | cons call calls ih =>
    obtain ⟨hs, hcls⟩ := hcalls call (List.mem_cons_self _ _)
    have hrest : ∀ call ∈ calls, call.2 ≤ BLOCK_SIZE_MAX ∧ classIndex call.2 = (c : Int) :=
      fun x hx => hcalls x (List.mem_cons_of_mem _ hx)
    have hlt : c < pool.block_list.length := (List.getElem?_eq_some_iff.1 hget).1
    obtain ⟨sys, size⟩ := call
    simp only at hs hcls
    cases chain with
    | nil => simp at hlen
    | cons b rest =>
      simp only [List.length_cons, Nat.add_le_add_iff_right] at hlen
      have hstep := Malloc_pop sys pool heap size c b rest hs hcls hget
      have hget1 : (pool.block_list.set c (some rest))[c]? = some (some rest) := by
        simp [List.getElem?_set_self, hlt]
      obtain ⟨pool1, hrun, hfin⟩ :=
        ih hrest { pool with block_list := pool.block_list.set c (some rest) } rest hget1 hlen
      refine ⟨pool1, ?_, ?_⟩
      · simp only [mallocMany, hstep, hrun, List.length_cons, List.take_succ_cons,
          List.map_cons]
      · simpa using hfin

/-- The addresses of the records of a carved chain, highest offset first. -/
theorem slabChain_ptrs (a c k : Nat) :
    (slabChain a c k).map (fun b => b.ptr) =
      ((List.range k).map (fun i => a + i * blockSize c)).reverse := by
  unfold slabChain
  simp [List.map_reverse, Function.comp_def]

/-- A returning `Malloc` on the overflow path returns the pool it was given. -/
theorem Malloc_ok_overflow {sys : Nat → Nat} {pool pool1 : MemoryPool} {heap heap1 : Heap}
    {size ptr : Nat}
    (hm : Malloc sys pool heap size = .ok (ptr, pool1, heap1)) (hbig : BLOCK_SIZE_MAX < size) :
    pool1 = pool := by
  rw [Malloc_overflow sys pool heap size hbig] at hm
  split_ifs at hm
  simp only [Except.ok.injEq, Prod.mk.injEq] at hm
  exact hm.2.1.symm

/-- A returning `Free` on the overflow path returns the pool it was given. -/
theorem Free_ok_overflow {pool pool1 : MemoryPool} {heap heap1 : Heap} {ptr size : Nat}
    (hf : Free pool heap ptr size = .ok (pool1, heap1)) (hbig : BLOCK_SIZE_MAX < size) :
    pool1 = pool := by
  rw [Free_overflow pool heap ptr size hbig] at hf
  split at hf
  · cases hf
  · simp only [Except.ok.injEq, Prod.mk.injEq] at hf
    exact hf.1.symm

/-- A returning `Malloc` changes no entry other than the one of its class. -/
theorem Malloc_other_entry {sys : Nat → Nat} {pool pool1 : MemoryPool} {heap heap1 : Heap}
    {size ptr : Nat} (c : Nat)
    (hm : Malloc sys pool heap size = .ok (ptr, pool1, heap1))
    (hother : BLOCK_SIZE_MAX < size ∨ classIndex size ≠ (c : Int)) :
    pool1.block_list[c]? = pool.block_list[c]? := by
  by_cases hbig : BLOCK_SIZE_MAX < size
  · rw [Malloc_ok_overflow hm hbig]
  · obtain ⟨d, rest, hd, _, rfl⟩ := Malloc_ok_set hm (by omega)
    have hne : d ≠ c := by
      rcases hother with h | h
      · exact absurd h hbig
      · intro hdc; rw [hd, hdc] at h; exact h rfl
    simp only [List.getElem?_set_ne hne]

/-- A returning `Malloc` leaves every existing head in place. -/
theorem Malloc_keeps_head {sys : Nat → Nat} {pool pool1 : MemoryPool} {heap heap1 : Heap}
    {size ptr : Nat} (c : Nat) (chain : List Block)
    (hm : Malloc sys pool heap size = .ok (ptr, pool1, heap1))
    (hget : pool.block_list[c]? = some (some chain)) :
    ∃ chain1, pool1.block_list[c]? = some (some chain1) := by
  by_cases hbig : BLOCK_SIZE_MAX < size
  · rw [Malloc_ok_overflow hm hbig]; exact ⟨chain, hget⟩
  · obtain ⟨d, rest, _, hlt, rfl⟩ := Malloc_ok_set hm (by omega)
    by_cases hdc : d = c
    · subst hdc
      exact ⟨rest, by simp [List.getElem?_set_self, hlt]⟩
    · exact ⟨chain, by simp only [List.getElem?_set_ne hdc]; exact hget⟩

/-- A returning `Free` leaves every existing head in place. -/
theorem Free_keeps_head {pool pool1 : MemoryPool} {heap heap1 : Heap} {ptr size : Nat}
    (c : Nat) (chain : List Block)
    (hf : Free pool heap ptr size = .ok (pool1, heap1))
    (hget : pool.block_list[c]? = some (some chain)) :
    ∃ chain1, pool1.block_list[c]? = some (some chain1) := by
  by_cases hbig : BLOCK_SIZE_MAX < size
  · rw [Free_ok_overflow hf hbig]; exact ⟨chain, hget⟩
  · obtain ⟨d, chain0, _, hget0, rfl, _⟩ := Free_ok_class hf (by omega)
    have hlt : d < pool.block_list.length := (List.getElem?_eq_some_iff.1 hget0).1
    by_cases hdc : d = c
    · subst hdc
      exact ⟨{ ptr := ptr, size := size } :: chain0, by simp [List.getElem?_set_self, hlt]⟩
    · exact ⟨chain, by simp only [List.getElem?_set_ne hdc]; exact hget⟩

/-- A returning `Free` leaves every null head null. -/
theorem Free_keeps_null {pool pool1 : MemoryPool} {heap heap1 : Heap} {ptr size : Nat}
    (c : Nat) (hf : Free pool heap ptr size = .ok (pool1, heap1))
    (hget : pool.block_list[c]? = some none) :
    pool1.block_list[c]? = some none := by
  by_cases hbig : BLOCK_SIZE_MAX < size
  · rw [Free_ok_overflow hf hbig]; exact hget
  · obtain ⟨d, chain0, _, hget0, rfl, _⟩ := Free_ok_class hf (by omega)
    have hdc : d ≠ c := by
      intro h; rw [h, hget] at hget0; cases hget0
    simp only [List.getElem?_set_ne hdc]; exact hget

/-- Heads that exist keep existing in every later state. -/
theorem later_keeps_head {pool0 pool : MemoryPool} {heap0 heap : Heap}
    (hl : Later pool0 heap0 pool heap) (c : Nat) (chain : List Block)
    (hget : pool0.block_list[c]? = some (some chain)) :
    ∃ chain1, pool.block_list[c]? = some (some chain1) := by
  induction hl with
  | refl => exact ⟨chain, hget⟩
  | malloc sys size ptr pool1 heap1 _ hm ih =>
    obtain ⟨chain1, h1⟩ := ih
    exact Malloc_keeps_head c chain1 hm h1
  | free ptr size pool1 heap1 _ hf ih =>
    obtain ⟨chain1, h1⟩ := ih
    exact Free_keeps_head c chain1 hf h1
  | write mem1 _ ih => exact ih

/-- A class that has seen no `Malloc` since `Init` still has a null head. -/
theorem noMallocOf_null {c : Nat} (hc : c < 64) {pool : MemoryPool} {heap : Heap}
    (hr : NoMallocOf c pool heap) : pool.block_list[c]? = some none := by
  induction hr with
  | init pool heap =>
    have e : (Init pool).block_list = List.replicate 64 none := rfl
    rw [e, List.getElem?_replicate, if_pos hc]
  | malloc sys size ptr pool1 heap1 _ hother hm ih =>
    rw [Malloc_other_entry c hm hother]; exact ih
  | free ptr size pool1 heap1 _ hf ih => exact Free_keeps_null c hf ih
  | write mem1 _ ih => exact ih

/-! ## Supporting lemmas: the uniform-block pool -/

namespace Simple

/-- The filling loop appends the block addresses in increasing offset. -/
theorem fill_loop_eq (f : Nat → Nat) (n : Nat) (l : List Nat) :
    (List.range n).foldl (fun v i => v ++ [f i]) l = l ++ (List.range n).map f := by
  induction n with
  | zero => simp
  | succ n ih => simp [List.range_succ, List.foldl_append, ih]

/-- The state left by `init_memory_pool` on a pool with an empty vector. -/
theorem init_memory_pool_eq (sys : Nat → Nat) (pool : MemoryPool) (heap : Heap)
    (block_size num_blocks : Nat) (hempty : pool.free_blocks = []) :
    (init_memory_pool sys pool heap block_size num_blocks).1 =
      { data := sys ((block_size * num_blocks) % 2 ^ 64), block_size := block_size,
        free_blocks := (List.range num_blocks).map
          (fun i => (sys ((block_size * num_blocks) % 2 ^ 64) + i * block_size) % 2 ^ 64) } := by
  have hfun : (fun i => (sys ((block_size * num_blocks) % 2 ^ 64) +
        (i * block_size) % 2 ^ 64) % 2 ^ 64) =
      (fun i => (sys ((block_size * num_blocks) % 2 ^ 64) + i * block_size) % 2 ^ 64) := by
    funext i
    exact Nat.add_mod_mod _ _ _
  unfold init_memory_pool sysMalloc
  generalize sys ((block_size * num_blocks) % 2 ^ 64) = r at hfun ⊢
  by_cases h0 : r = 0
  · subst h0
    simp only [if_true, hempty, fill_loop_eq, List.nil_append]
    rw [hfun]
  · simp only [h0, if_false, hempty, fill_loop_eq, List.nil_append]
    rw [hfun]

/-- Taking the back of a vector that was just pushed to. -/
theorem allocate_push (pool : MemoryPool) (l : List Nat) (b : Nat)
    (h : pool.free_blocks = l ++ [b]) :
    allocate_memory_block pool = (b, { pool with free_blocks := l }) := by
  unfold allocate_memory_block
  rw [h, List.getLast?_concat]
  simp

/-- On an empty vector `allocate_memory_block` returns null and keeps the
pool. -/
theorem allocate_empty (pool : MemoryPool) (h : pool.free_blocks = []) :
    allocate_memory_block pool = (0, pool) := by
  unfold allocate_memory_block
  rw [h]
  rfl

/-- As many calls as the vector holds blocks return the blocks from the back
to the front and leave the vector empty. -/
theorem allocateMany_all (l : List Nat) (pool : MemoryPool) (h : pool.free_blocks = l) :
    allocateMany l.length pool = (l.reverse, { pool with free_blocks := [] }) := by
  induction l using List.reverseRecOn generalizing pool with
  | nil =>
    simp only [List.length_nil, allocateMany, List.reverse_nil]
    rw [← h]
  | append_singleton xs x ih =>
    have hstep := allocate_push pool xs x h
    have hrec := ih { pool with free_blocks := xs } rfl
    simp only [List.length_append, List.length_singleton, allocateMany, hstep, hrec,
      List.reverse_append, List.reverse_singleton, List.singleton_append]

end Simple

/-! ## The claims -/

/-- C1: for `1 ≤ size ≤ 512` the index `c` computed by `Malloc` and `Free`
satisfies `c * 8 < size ≤ (c + 1) * 8`, and `c = ceil(size / 8) - 1`. -/
theorem classIndex_bounds (size : Nat) (h1 : 1 ≤ size) (h2 : size ≤ BLOCK_SIZE_MAX) :
    classIndex size * BLOCK_SIZE_MIN < size ∧
    (size : Int) ≤ (classIndex size + 1) * BLOCK_SIZE_MIN ∧
    classIndex size = ⌈(size : ℚ) / BLOCK_SIZE_MIN⌉ - 1 := by
  have hc := classIndex_eq size h1 (by simpa [BLOCK_SIZE_MAX] using h2)
  have hlt : classIndex size * 8 < size := by rw [hc]; omega
  have hle : (size : Int) ≤ (classIndex size + 1) * 8 := by rw [hc]; omega
  refine ⟨by simpa [BLOCK_SIZE_MIN] using hlt, by simpa [BLOCK_SIZE_MIN] using hle, ?_⟩
  have hceil : ⌈(size : ℚ) / BLOCK_SIZE_MIN⌉ = classIndex size + 1 := by
    rw [Int.ceil_eq_iff]
    have e8 : ((BLOCK_SIZE_MIN : Nat) : ℚ) = 8 := by norm_num [BLOCK_SIZE_MIN]
    have q1 : ((classIndex size * 8 : Int) : ℚ) < ((size : Int) : ℚ) := by exact_mod_cast hlt
    have q2 : (((size : Int)) : ℚ) ≤ (((classIndex size + 1) * 8 : Int) : ℚ) := by
      exact_mod_cast hle
    push_cast at q1 q2
    rw [e8]
    push_cast
    constructor
    · rw [lt_div_iff₀ (by norm_num)]; linarith
    · rw [div_le_iff₀ (by norm_num)]; linarith
  rw [hceil]; ring

/-- C1 witness: size 15 (the first size of `Test`) lies in class 1. -/
theorem classIndex_bounds_witness :
    classIndex 15 * BLOCK_SIZE_MIN < 15 ∧
    ((15 : Nat) : Int) ≤ (classIndex 15 + 1) * BLOCK_SIZE_MIN ∧
    classIndex 15 = ⌈((15 : Nat) : ℚ) / BLOCK_SIZE_MIN⌉ - 1 :=
  classIndex_bounds 15 (by decide) (by decide)

/-- C2: for `1 ≤ size ≤ 512` the index lies in `[0, 64)`, so reading
`block_list[index]` of a 64-entry array is in bounds; index 0 is reached exactly
by sizes `1..8` and index 63 exactly by sizes `505..512`. -/
theorem classIndex_in_range (size : Nat) (h1 : 1 ≤ size) (h2 : size ≤ BLOCK_SIZE_MAX) :
    0 ≤ classIndex size ∧
    classIndex size < ((BLOCK_SIZE_MAX / BLOCK_SIZE_MIN : Nat) : Int) ∧
    BLOCK_SIZE_MAX / BLOCK_SIZE_MIN = 64 ∧
    (classIndex size = 0 ↔ size ≤ 8) ∧
    (classIndex size = 63 ↔ 505 ≤ size) ∧
    (∀ pool : MemoryPool, pool.block_list.length = BLOCK_SIZE_MAX / BLOCK_SIZE_MIN →
      ∃ head, lookup pool (classIndex size) = .ok head) := by
  have h2' : size ≤ 512 := by simpa [BLOCK_SIZE_MAX] using h2
  have hc := classIndex_eq size h1 h2'
  have e64 : BLOCK_SIZE_MAX / BLOCK_SIZE_MIN = 64 := by decide
  refine ⟨by rw [hc]; omega, by rw [hc, e64]; omega, e64, by rw [hc]; omega,
    by rw [hc]; omega, ?_⟩
  intro pool hlen
  have hlt : ((size + 7) / 8 - 1) < pool.block_list.length := by rw [hlen, e64]; omega
  have hneg : ¬ (((size + 7) / 8 - 1 : Nat) : Int) < 0 := by omega
  unfold lookup
  rw [hc]
  simp [List.getElem?_eq_getElem hlt, hneg]

/-- C2 witness: size 512 (the last size of `Test`) reads entry 63. -/
theorem classIndex_in_range_witness :
    0 ≤ classIndex 512 ∧
    classIndex 512 < ((BLOCK_SIZE_MAX / BLOCK_SIZE_MIN : Nat) : Int) ∧
    BLOCK_SIZE_MAX / BLOCK_SIZE_MIN = 64 ∧
    (classIndex 512 = 0 ↔ 512 ≤ 8) ∧
    (classIndex 512 = 63 ↔ 505 ≤ 512) ∧
    (∀ pool : MemoryPool, pool.block_list.length = BLOCK_SIZE_MAX / BLOCK_SIZE_MIN →
      ∃ head, lookup pool (classIndex 512) = .ok head) :=
  classIndex_in_range 512 (by decide) (by decide)

/-- C3: a recycled region is not zero-filled over its block.  After `Malloc(9)`
(a 16-byte block at 1496), a caller store of 65 at offset 12 (inside the usable
16 bytes), and `Free(p, 9)`, the call `Malloc(16)` returns the same address and
byte 12 of the returned region still holds 65: `Free` cleared only the first 9
bytes. -/
theorem recycled_region_keeps_stale_byte :
    recycleScenario = .ok (1496, 1496, 65) ∧ usable 9 = 16 ∧ usable 16 = 16 := by
  exact ⟨rfl, by decide, by decide⟩

/-- C4: the record pushed by `Free(p, 15)` on class 1 carries size 15, not the
class block size 16. -/
theorem released_node_records_request_size :
    releaseScenario = .ok (some { ptr := 1496, size := 15 }) ∧ blockSize 1 = 16 := by
  exact ⟨rfl, rfl⟩

/-- C5: `Destroy` right after `Init` dereferences the null head of class 0, and
so does the `Destroy` call at the end of `Test`, which never touches class 0. -/
theorem destroy_faults_on_null_head :
    (∀ pool heap, Destroy (Init pool) heap = .error .nullDeref) ∧
    Test (fun i _ => 1000 * (i + 1)) heap0 = .error .nullDeref := by
  exact ⟨fun _ _ => rfl, rfl⟩

/-- C6: with one slab of class 0 at base 1000 and every region released,
`Destroy` passes the interior address 1504 to `free` as its first call. -/
theorem destroy_frees_interior_pointer :
    teardownScenario = .error (.invalidFree 1504) := by
  rfl

/-- C7: in every state reachable under the caller contract and the allocator
contract, (1) a record on a free list and an outstanding region never share an
address or overlap, (2) no address occurs twice on the free lists, neither
within one chain nor in the chains of two classes, and the block ranges of the
records do not overlap, (3) any two outstanding regions have different
addresses and non-overlapping byte ranges. -/
theorem regions_never_overlap {pool : MemoryPool} {heap : Heap} {out : List (Nat × Nat)}
    (hr : Reachable pool heap out) :
    (∀ (c : Nat) (chain : List Block) (b : Block) (x : Nat × Nat),
        pool.block_list[c]? = some (some chain) → b ∈ chain → x ∈ out →
        b.ptr ≠ x.1 ∧ Separated (b.ptr, blockSize c) (extent x)) ∧
    (∀ (c : Nat) (chain : List Block), pool.block_list[c]? = some (some chain) →
        chain.Pairwise (fun x y =>
          x.ptr ≠ y.ptr ∧ Separated (x.ptr, blockSize c) (y.ptr, blockSize c))) ∧
    (∀ (c d : Nat) (chain1 chain2 : List Block) (b1 b2 : Block), c ≠ d →
        pool.block_list[c]? = some (some chain1) → pool.block_list[d]? = some (some chain2) →
        b1 ∈ chain1 → b2 ∈ chain2 →
        b1.ptr ≠ b2.ptr ∧ Separated (b1.ptr, blockSize c) (b2.ptr, blockSize d)) ∧
    out.Pairwise (fun x y => x.1 ≠ y.1 ∧ Separated (extent x) (extent y)) := by
  have hinv := reachable_inv hr
  obtain ⟨hfree, hout, hcross⟩ := List.pairwise_append.1 hinv.regSep
  have hposO : ∀ x ∈ out, 0 < (extent x).2 := fun x h =>
    (hinv.backed (extent x) (List.mem_append_right _ (List.mem_map_of_mem _ h))).1
  have hsplit : ∀ (c : Nat) (chain : List Block), pool.block_list[c]? = some (some chain) →
      (chainRegions c (some chain) ++
        freeRegions { pool with block_list := pool.block_list.set c none }).Pairwise
          Separated := fun c chain hget =>
    ((freeRegions_split pool c _ hget).pairwise_iff (fun h => separated_symm h)).1 hfree
  refine ⟨?_, ?_, ?_, ?_⟩
  · intro c chain b x hget hb hx
    have hmem : (b.ptr, blockSize c) ∈ freeRegions pool := by
      have := mem_freeRegionsFrom 0 c pool.block_list chain b hget hb
      rwa [Nat.zero_add] at this
    have hs := hcross _ hmem _ (List.mem_map_of_mem _ hx)
    exact ⟨separated_ne hs (blockSize_pos c) (hposO x hx), hs⟩
  · intro c chain hget
    have h1 := (List.pairwise_append.1 (hsplit c chain hget)).1
    simp only [chainRegions, List.pairwise_map] at h1
    exact h1.imp (fun {x y} h =>
      ⟨@separated_ne (x.ptr, blockSize c) (y.ptr, blockSize c) h
        (blockSize_pos c) (blockSize_pos c), h⟩)
  · intro c d chain1 chain2 b1 b2 hcd hget1 hget2 hb1 hb2
    have h1 := (List.pairwise_append.1 (hsplit c chain1 hget1)).2.2
    have hget2a : (pool.block_list.set c none)[d]? = some (some chain2) := by
      rw [List.getElem?_set_ne hcd]; exact hget2
    have hmem2 : (b2.ptr, blockSize d) ∈
        freeRegions { pool with block_list := pool.block_list.set c none } := by
      have := mem_freeRegionsFrom 0 d (pool.block_list.set c none) chain2 b2 hget2a hb2
      rwa [Nat.zero_add] at this
    have hmem1 : (b1.ptr, blockSize c) ∈ chainRegions c (some chain1) := by
      simp only [chainRegions, List.mem_map]
      exact ⟨b1, hb1, rfl⟩
    have hs := h1 _ hmem1 _ hmem2
    exact ⟨@separated_ne (b1.ptr, blockSize c) (b2.ptr, blockSize d) hs
      (blockSize_pos c) (blockSize_pos d), hs⟩
  · rw [List.pairwise_map] at hout
    exact hout.imp_of_mem (fun {a b} ha hb h =>
      ⟨@separated_ne (extent a) (extent b) h (hposO a ha) (hposO b hb), h⟩)

/-- C7 witness: the state after `Malloc(15)`, `Malloc(9)`, `Free(1496, 15)` and
`Malloc(600)`: 31 records on class 1, the released block first, and two
outstanding regions, one of them on the overflow path. -/
theorem regions_never_overlap_witness :
    (∀ (c : Nat) (chain : List Block) (b : Block) (x : Nat × Nat),
        pool15c.block_list[c]? = some (some chain) → b ∈ chain →
        x ∈ [((5000 : Nat), (600 : Nat)), (1480, 9)] →
        b.ptr ≠ x.1 ∧ Separated (b.ptr, blockSize c) (extent x)) ∧
    (∀ (c : Nat) (chain : List Block), pool15c.block_list[c]? = some (some chain) →
        chain.Pairwise (fun x y =>
          x.ptr ≠ y.ptr ∧ Separated (x.ptr, blockSize c) (y.ptr, blockSize c))) ∧
    (∀ (c d : Nat) (chain1 chain2 : List Block) (b1 b2 : Block), c ≠ d →
        pool15c.block_list[c]? = some (some chain1) →
        pool15c.block_list[d]? = some (some chain2) →
        b1 ∈ chain1 → b2 ∈ chain2 →
        b1.ptr ≠ b2.ptr ∧ Separated (b1.ptr, blockSize c) (b2.ptr, blockSize d)) ∧
    [((5000 : Nat), (600 : Nat)), (1480, 9)].Pairwise
      (fun x y => x.1 ≠ y.1 ∧ Separated (extent x) (extent y)) :=
  regions_never_overlap reachable_pool15c

/-- C8: in a reachable state, `Malloc(size)` with `1 ≤ size ≤ 512` (the
underlying allocator answering non-null when asked) returns a region of
`(c + 1) * 8 ≥ size` bytes lying inside one live slab of
`(c + 1) * 8 * (512 / ((c + 1) * 8))` bytes; for every class `c < 64` the block
count is at least 1 and the slices carved from a slab are pairwise disjoint and
inside the slab. -/
theorem malloc_region_in_slab {pool : MemoryPool} {heap : Heap} {out : List (Nat × Nat)}
    (hr : Reachable pool heap out) (sys : Nat → Nat) (size : Nat)
    (h1 : 1 ≤ size) (h2 : size ≤ BLOCK_SIZE_MAX)
    (hsys : sys (slabSize (classIndex size).toNat) ≠ 0) :
    (∃ (c ptr : Nat) (pool1 : MemoryPool) (heap1 : Heap),
      classIndex size = (c : Int) ∧ c < 64 ∧
      Malloc sys pool heap size = .ok (ptr, pool1, heap1) ∧
      size ≤ (c + 1) * 8 ∧
      ∃ slab ∈ heap1.live, slab.2 = (c + 1) * 8 * (512 / ((c + 1) * 8)) ∧
        slab.1 ≤ ptr ∧ ptr + (c + 1) * 8 ≤ slab.1 + slab.2) ∧
    (∀ c, c < 64 → blockSize c = (c + 1) * 8 ∧ blockNum c = 512 / ((c + 1) * 8) ∧
      1 ≤ blockNum c ∧
      ∀ a, (carve a (blockSize c) (blockNum c) []).Pairwise
          (fun x y => Separated (x.ptr, blockSize c) (y.ptr, blockSize c)) ∧
        ∀ b ∈ carve a (blockSize c) (blockNum c) [],
          a ≤ b.ptr ∧ b.ptr + blockSize c ≤ a + blockSize c * blockNum c) := by
  have hinv := reachable_inv hr
  have h2' : size ≤ 512 := h2
  refine ⟨?_, fun c hc => ⟨rfl, rfl, blockNum_pos c hc, fun a =>
    ⟨carve_pairwise a c, fun b hb => carve_inside a c b hb⟩⟩⟩
  have hc := classIndex_eq size h1 h2'
  have hc64 : (size + 7) / 8 - 1 < 64 := by omega
  have hsz : size ≤ ((size + 7) / 8 - 1 + 1) * 8 := by omega
  rw [classIndex_toNat size h1 h2'] at hsys
  generalize (size + 7) / 8 - 1 = c at hc hc64 hsz hsys
  have hlt : c < pool.block_list.length := by rw [hinv.len]; exact hc64
  have hget : pool.block_list[c]? = some pool.block_list[c] := List.getElem?_eq_getElem hlt
  have hbs : blockSize c = (c + 1) * 8 := rfl
  have hss : slabSize c = (c + 1) * 8 * (512 / ((c + 1) * 8)) := rfl
  generalize pool.block_list[c] = head at hget
  have hchain : (∃ b rest, head = some (b :: rest)) ∨ head = none ∨ head = some [] := by
    rcases head with _ | _ | ⟨b, rest⟩
    · exact Or.inr (Or.inl rfl)
    · exact Or.inr (Or.inr rfl)
    · exact Or.inl ⟨b, rest, rfl⟩
  rcases hchain with ⟨b, rest, rfl⟩ | hempty
  · refine ⟨c, b.ptr, _, heap, hc, hc64, Malloc_pop sys pool heap size c b rest h2 hc hget, hsz, ?_⟩
    have hmem : (b.ptr, blockSize c) ∈ freeRegions pool := by
      have := mem_freeRegionsFrom 0 c pool.block_list (b :: rest) b hget (List.mem_cons_self _ _)
      rwa [Nat.zero_add] at this
    have hb := (hinv.backed _ (List.mem_append_left _ hmem)).2
    have hle := blockSize_le c hc64
    have : ¬ BLOCK_SIZE_MAX < blockSize c := by unfold BLOCK_SIZE_MAX; omega
    simp only [this, if_false] at hb
    obtain ⟨slab, hs1, hs2, hs3, hs4⟩ := hb
    exact ⟨slab, hs1, hs2, hs3, hs4⟩
  · have hm := Malloc_provision sys pool heap size c head h2 hc hc64 hget hempty
    rw [if_neg hsys] at hm
    refine ⟨c, _, _, _, hc, hc64, hm, hsz, (sys (slabSize c), slabSize c),
      List.mem_cons_self _ _, hss, Nat.le_add_right _ _, ?_⟩
    have hn := blockNum_pos c hc64
    have hmul : (blockNum c - 1) * blockSize c + blockSize c = slabSize c := by
      unfold slabSize
      obtain ⟨n, hn1⟩ : ∃ n, blockNum c = n + 1 := ⟨blockNum c - 1, by omega⟩
      rw [hn1, Nat.add_sub_cancel, Nat.mul_comm (blockSize c), Nat.add_mul, Nat.one_mul]
    rw [← hbs]
    simp only
    omega

/-- C8 witness: `Malloc(15)` on the freshly initialised pool. -/
theorem malloc_region_in_slab_witness :
    (∃ (c ptr : Nat) (pool1 : MemoryPool) (heap1 : Heap),
      classIndex 15 = (c : Int) ∧ c < 64 ∧
      Malloc (fun _ => 1000) (Init pool0) heap0 15 = .ok (ptr, pool1, heap1) ∧
      15 ≤ (c + 1) * 8 ∧
      ∃ slab ∈ heap1.live, slab.2 = (c + 1) * 8 * (512 / ((c + 1) * 8)) ∧
        slab.1 ≤ ptr ∧ ptr + (c + 1) * 8 ≤ slab.1 + slab.2) ∧
    (∀ c, c < 64 → blockSize c = (c + 1) * 8 ∧ blockNum c = 512 / ((c + 1) * 8) ∧
      1 ≤ blockNum c ∧
      ∀ a, (carve a (blockSize c) (blockNum c) []).Pairwise
          (fun x y => Separated (x.ptr, blockSize c) (y.ptr, blockSize c)) ∧
        ∀ b ∈ carve a (blockSize c) (blockNum c) [],
          a ≤ b.ptr ∧ b.ptr + blockSize c ≤ a + blockSize c * blockNum c) :=
  malloc_region_in_slab (Reachable.init pool0 heap0 List.Pairwise.nil) (fun _ => 1000) 15
    (by decide) (by decide) (by decide)

/-- C9: for `size > 512`, `Malloc` returns the address answered by the
underlying allocator with the pool unchanged and the `size` bytes at that
address zeroed (a null answer faults in `memset`); the address and heap do not
depend on the pool; `Free` hands `ptr` to the underlying `free` and returns the
pool unchanged. -/
theorem overflow_bypasses_classes (sys : Nat → Nat) (pool : MemoryPool) (heap : Heap)
    (ptr size : Nat) (h : BLOCK_SIZE_MAX < size) :
    (∃ heap1 : Heap,
      Malloc sys pool heap size =
        (if sys size = 0 then .error .nullDeref else .ok (sys size, pool, heap1)) ∧
      heap1.live = (sys size, size) :: heap.live ∧
      (∀ a, sys size ≤ a → a < sys size + size → heap1.mem a = 0) ∧
      (∀ a, ¬ (sys size ≤ a ∧ a < sys size + size) → heap1.mem a = heap.mem a) ∧
      ∀ pool2 : MemoryPool, Malloc sys pool2 heap size =
        (if sys size = 0 then .error .nullDeref else .ok (sys size, pool2, heap1))) ∧
    Free pool heap ptr size =
      (match sysFree heap ptr with
       | .error e => .error e
       | .ok heap1 => .ok (pool, heap1)) := by
  refine ⟨⟨_, Malloc_overflow sys pool heap size h, rfl, ?_, ?_,
    fun pool2 => Malloc_overflow sys pool2 heap size h⟩, Free_overflow pool heap ptr size h⟩
  · intro a h1 h2
    simp [h1, h2]
  · intro a hna
    simp only [hna, if_false]

/-- C9 witness: the 600-byte request of the example scenario. -/
theorem overflow_bypasses_classes_witness :
    (∃ heap1 : Heap,
      Malloc (fun _ => 7000) pool15 heap600 600 =
        (if 7000 = 0 then .error .nullDeref else .ok (7000, pool15, heap1)) ∧
      heap1.live = (7000, 600) :: heap600.live ∧
      (∀ a, 7000 ≤ a → a < 7000 + 600 → heap1.mem a = 0) ∧
      (∀ a, ¬ (7000 ≤ a ∧ a < 7000 + 600) → heap1.mem a = heap600.mem a) ∧
      ∀ pool2 : MemoryPool, Malloc (fun _ => 7000) pool2 heap600 600 =
        (if 7000 = 0 then .error .nullDeref else .ok (7000, pool2, heap1))) ∧
    Free pool15 heap600 5000 600 =
      (match sysFree heap600 5000 with
       | .error e => .error e
       | .ok heap1 => .ok (pool15, heap1)) :=
  overflow_bypasses_classes (fun _ => 7000) pool15 heap600 5000 600 (by decide)

/-- C10: for a class `c < 64` with block size `(c + 1) * 8` and block count
`n = 512 / ((c + 1) * 8)`: a `Malloc` of class `c` on an empty list (null head
or empty chain) requests exactly one slab of `block_size * n` bytes and leaves
`n - 1` records of the block size on the list; a `Malloc` on a non-empty list
leaves the heap untouched and removes exactly the first record; and `k`
consecutive `Malloc` calls of class `c` on a freshly initialised pool all return
and request exactly `ceil(k / n) = (k + n - 1) / n` slabs, each of
`block_size * n` bytes. -/
theorem provisioning_once_per_exhaustion (c : Nat) (hc : c < 64) :
    (blockSize c = (c + 1) * 8 ∧ blockNum c = 512 / ((c + 1) * 8)) ∧
    (∀ (sys : Nat → Nat) (pool : MemoryPool) (heap : Heap) (size : Nat)
        (head : Option (List Block)),
      size ≤ BLOCK_SIZE_MAX → classIndex size = (c : Int) →
      pool.block_list[c]? = some head → (head = none ∨ head = some []) →
      sys (blockSize c * blockNum c) ≠ 0 →
      ∃ (ptr : Nat) (pool1 : MemoryPool) (heap1 : Heap) (chain : List Block),
        Malloc sys pool heap size = .ok (ptr, pool1, heap1) ∧
        heap1.live = (sys (blockSize c * blockNum c), blockSize c * blockNum c) :: heap.live ∧
        pool1.block_list[c]? = some (some chain) ∧
        chain.length = blockNum c - 1 ∧ ∀ b ∈ chain, b.size = blockSize c) ∧
    (∀ (sys : Nat → Nat) (pool : MemoryPool) (heap : Heap) (size : Nat)
        (b : Block) (rest : List Block),
      size ≤ BLOCK_SIZE_MAX → classIndex size = (c : Int) →
      pool.block_list[c]? = some (some (b :: rest)) →
      Malloc sys pool heap size =
        .ok (b.ptr, { pool with block_list := pool.block_list.set c (some rest) }, heap)) ∧
    (∀ (calls : List ((Nat → Nat) × Nat)) (pool : MemoryPool) (heap : Heap),
      (∀ call ∈ calls, call.2 ≤ BLOCK_SIZE_MAX ∧ classIndex call.2 = (c : Int) ∧
        call.1 (blockSize c * blockNum c) ≠ 0) →
      ∃ (ptrs : List Nat) (pool1 : MemoryPool) (heap1 : Heap) (slabs : List (Nat × Nat)),
        mallocMany calls (Init pool) heap = .ok (ptrs, pool1, heap1) ∧
        ptrs.length = calls.length ∧
        heap1.live = slabs ++ heap.live ∧
        (∀ s ∈ slabs, s.2 = blockSize c * blockNum c) ∧
        slabs.length = (calls.length + blockNum c - 1) / blockNum c) := by
  refine ⟨⟨rfl, rfl⟩, ?_, ?_, ?_⟩
  · intro sys pool heap size head hs hcls hget hempty hsys
    have hlt : c < pool.block_list.length := (List.getElem?_eq_some_iff.1 hget).1
    have hss : blockSize c * blockNum c = slabSize c := rfl
    rw [hss] at hsys ⊢
    have hstep := Malloc_provision sys pool heap size c head hs hcls hc hget hempty
    rw [if_neg hsys] at hstep
    refine ⟨_, _, _, slabChain (sys (slabSize c)) c (blockNum c - 1), hstep, rfl, ?_,
      slabChain_length _ _ _, fun b hb => slabChain_size _ _ _ b hb⟩
    simp [List.getElem?_set_self, hlt]
  · intro sys pool heap size b rest hs hcls hget
    exact Malloc_pop sys pool heap size c b rest hs hcls hget
  · intro calls pool heap hcalls
    have hget : (Init pool).block_list[c]? = some none := by
      have e : (Init pool).block_list = List.replicate 64 none := rfl
      rw [e, List.getElem?_replicate, if_pos hc]
    have hn := blockNum_pos c hc
    have := mallocMany_slabs c hc calls hcalls (Init pool) heap none hget
      (by simp only [chainLen]; omega)
    simpa only [chainLen, Nat.sub_zero] using this

/-- C10 witness: class 1, the class of the request `Malloc(15)` of the example
scenario, has 32 blocks of 16 bytes per slab. -/
theorem provisioning_once_per_exhaustion_witness :
    (1 < 64 ∧ classIndex 15 = 1 ∧ blockSize 1 = 16 ∧ blockNum 1 = 32) ∧
    (∀ (calls : List ((Nat → Nat) × Nat)) (pool : MemoryPool) (heap : Heap),
      (∀ call ∈ calls, call.2 ≤ BLOCK_SIZE_MAX ∧ classIndex call.2 = ((1 : Nat) : Int) ∧
        call.1 (blockSize 1 * blockNum 1) ≠ 0) →
      ∃ (ptrs : List Nat) (pool1 : MemoryPool) (heap1 : Heap) (slabs : List (Nat × Nat)),
        mallocMany calls (Init pool) heap = .ok (ptrs, pool1, heap1) ∧
        ptrs.length = calls.length ∧
        heap1.live = slabs ++ heap.live ∧
        (∀ s ∈ slabs, s.2 = blockSize 1 * blockNum 1) ∧
        slabs.length = (calls.length + blockNum 1 - 1) / blockNum 1) :=
  ⟨⟨by decide, by decide, by decide, by decide⟩,
    (provisioning_once_per_exhaustion 1 (by decide)).2.2.2⟩

/-- C11: `Free` pushes the released block at the head of the list of its class.
For every pool and heap, every `size ≤ 512` whose class head exists (which
forces `size ≥ 1`), every non-null `p` and every `size2 ≤ 512` of the same class,
`Free(pool, p, size)` returns with `p` first on the chain and the live
allocations untouched, and the `Malloc(pool, size2)` that follows returns
exactly `p`, requests no slab (the heap is the one left by `Free`, whatever the
allocator would answer) and restores the pool to what it was before the `Free`.
In particular, when `Malloc(size)` has just returned `p`, then `Free(p, size)`
followed by `Malloc(size)` returns `p` again, a region of the same class block
size. -/
theorem free_then_malloc_round_trip (sys : Nat → Nat) (pool : MemoryPool) (heap : Heap)
    (p size : Nat) (h2 : size ≤ BLOCK_SIZE_MAX) (hp : p ≠ 0) :
    (∀ (size2 : Nat) (chain : List Block), size2 ≤ BLOCK_SIZE_MAX →
      classIndex size2 = classIndex size →
      lookup pool (classIndex size) = .ok (some chain) →
      ∃ (pool1 : MemoryPool) (heap1 : Heap),
        Free pool heap p size = .ok (pool1, heap1) ∧
        lookup pool1 (classIndex size) = .ok (some ({ ptr := p, size := size } :: chain)) ∧
        heap1.live = heap.live ∧
        Malloc sys pool1 heap1 size2 = .ok (p, pool, heap1) ∧
        usable size2 = usable size) ∧
    (∀ (sys0 : Nat → Nat) (pool0 : MemoryPool) (heap0 : Heap),
      Malloc sys0 pool0 heap0 size = .ok (p, pool, heap) →
      ∃ (pool1 : MemoryPool) (heap1 : Heap),
        Free pool heap p size = .ok (pool1, heap1) ∧
        Malloc sys pool1 heap1 size = .ok (p, pool, heap1)) := by
  have main : ∀ (size2 c : Nat) (chain : List Block), size2 ≤ BLOCK_SIZE_MAX →
      classIndex size2 = (c : Int) → classIndex size = (c : Int) →
      pool.block_list[c]? = some (some chain) →
      ∃ (pool1 : MemoryPool) (heap1 : Heap),
        Free pool heap p size = .ok (pool1, heap1) ∧
        lookup pool1 (c : Int) = .ok (some ({ ptr := p, size := size } :: chain)) ∧
        heap1.live = heap.live ∧
        Malloc sys pool1 heap1 size2 = .ok (p, pool, heap1) := by
    intro size2 c chain h4 hc2 hc hget
    have hlt : c < pool.block_list.length := (List.getElem?_eq_some_iff.1 hget).1
    have hfree := Free_small pool heap p size c chain h2 hc hget
    rw [if_neg hp] at hfree
    have hget1 : (pool.block_list.set c (some ({ ptr := p, size := size } :: chain)))[c]? =
        some (some ({ ptr := p, size := size } :: chain)) := by
      simp [List.getElem?_set_self, hlt]
    refine ⟨_, _, hfree, ?_, rfl, ?_⟩
    · rw [lookup_natCast]
      simp only [hget1]
    · rw [Malloc_pop sys _ _ size2 c { ptr := p, size := size } chain h4 hc2 hget1]
      simp only [List.set_set, set_same pool.block_list c (some chain) hget]
  constructor
  · intro size2 chain h4 hsame hhead
    obtain ⟨c, hc, hget⟩ := lookup_ok hhead
    have hc2 : classIndex size2 = (c : Int) := by rw [hsame, hc]
    obtain ⟨pool1, heap1, hf, hl, hlive, hm⟩ := main size2 c chain h4 hc2 hc hget
    refine ⟨pool1, heap1, hf, by rw [hc]; exact hl, hlive, hm, ?_⟩
    rw [usable_small size2 c h4 hc2, usable_small size c h2 hc]
  · intro sys0 pool0 heap0 hm0
    obtain ⟨c, rest, hc, hlt, hpool⟩ := Malloc_ok_set hm0 h2
    have hget : pool.block_list[c]? = some (some rest) := by
      rw [hpool]
      simp [List.getElem?_set_self, hlt]
    obtain ⟨pool1, heap1, hf, _, _, hm⟩ := main size c rest h2 hc hc hget
    exact ⟨pool1, heap1, hf, hm⟩

/-- C11 witness: the block 1496 acquired by `Malloc(15)` on the fresh pool is
released with size 15 and acquired again with size 9, a size of the same
class. -/
theorem free_then_malloc_round_trip_witness :
    (∃ (pool1 : MemoryPool) (heap1 : Heap),
      Free pool15 heap15 1496 15 = .ok (pool1, heap1) ∧
      lookup pool1 (classIndex 15) =
        .ok (some ({ ptr := 1496, size := 15 } :: slabChain 1000 1 31)) ∧
      heap1.live = heap15.live ∧
      Malloc (fun _ => 0) pool1 heap1 9 = .ok (1496, pool15, heap1) ∧
      usable 9 = usable 15) ∧
    (∃ (pool1 : MemoryPool) (heap1 : Heap),
      Free pool15 heap15 1496 15 = .ok (pool1, heap1) ∧
      Malloc (fun _ => 0) pool1 heap1 15 = .ok (1496, pool15, heap1)) :=
  ⟨(free_then_malloc_round_trip (fun _ => 0) pool15 heap15 1496 15 (by decide) (by decide)).1
      9 (slabChain 1000 1 31) (by decide) (by decide) (by rfl),
   (free_then_malloc_round_trip (fun _ => 0) pool15 heap15 1496 15 (by decide) (by decide)).2
      (fun _ => 1000) (Init pool0) heap0 (by rfl)⟩

/-- C12 counterexample: with the underlying allocator answering null,
`Malloc(600)` (overflow path) and `Malloc(15)` (provisioning path) on the fresh
pool have no out-of-memory result, nor any other defined result: both hand the
unchecked null pointer to `memset`, which is undefined behaviour. -/
theorem malloc_null_answer_not_reported :
    Malloc (fun _ => 0) (Init pool0) heap0 600 = .error .nullDeref ∧
    Malloc (fun _ => 0) (Init pool0) heap0 15 = .error .nullDeref ∧
    (¬ ∃ res, Malloc (fun _ => 0) (Init pool0) heap0 600 = .ok res) ∧
    (¬ ∃ res, Malloc (fun _ => 0) (Init pool0) heap0 15 = .ok res) := by
  have h600 : Malloc (fun _ => 0) (Init pool0) heap0 600 = .error .nullDeref := rfl
  have h15 : Malloc (fun _ => 0) (Init pool0) heap0 15 = .error .nullDeref := rfl
  refine ⟨h600, h15, ?_, ?_⟩
  · rintro ⟨res, h⟩; rw [h600] at h; cases h
  · rintro ⟨res, h⟩; rw [h15] at h; cases h

/-- C12 amended: `Malloc` has no null check and no out-of-memory result.  On
the overflow path (`size > 512`) and on the provisioning path (`size ≤ 512`,
class `c < 64`, list empty), when the underlying allocator answers null, the
null pointer is what `memset` is called on, with a positive byte count: this is
undefined behaviour (the fault `nullDeref`), so the code defines neither a
result for the caller nor a state of the free list.  When the answer is
non-null, `Malloc` returns a region: the allocator's region, zeroed, with the
pool unchanged on the overflow path; the highest slice of the new zeroed slab,
the other `n - 1` slices being left on the list of the class, on the
provisioning path.  The behaviour of `Malloc` on these paths is thus defined
exactly when the answer is non-null. -/
theorem malloc_returns_iff_allocator_answers (sys : Nat → Nat) (pool : MemoryPool)
    (heap : Heap) (size : Nat) :
    (BLOCK_SIZE_MAX < size →
      (sys size = 0 →
        0 < size ∧ (sysMalloc heap size (sys size)).1 = 0 ∧
        memset (sysMalloc heap size (sys size)).2 0 size = .error .nullDeref ∧
        Malloc sys pool heap size = .error .nullDeref) ∧
      (sys size ≠ 0 →
        ∃ heap1 : Heap, Malloc sys pool heap size = .ok (sys size, pool, heap1) ∧
          heap1.live = (sys size, size) :: heap.live ∧
          ∀ a, sys size ≤ a → a < sys size + size → heap1.mem a = 0) ∧
      ((∃ res, Malloc sys pool heap size = .ok res) ↔ sys size ≠ 0)) ∧
    (∀ (c : Nat) (head : Option (List Block)),
      size ≤ BLOCK_SIZE_MAX → c < 64 → classIndex size = (c : Int) →
      pool.block_list[c]? = some head → (head = none ∨ head = some []) →
      (sys (blockSize c * blockNum c) = 0 →
        0 < blockSize c * blockNum c ∧
        (sysMalloc heap (blockSize c * blockNum c) (sys (blockSize c * blockNum c))).1 = 0 ∧
        memset (sysMalloc heap (blockSize c * blockNum c)
          (sys (blockSize c * blockNum c))).2 0 (blockSize c * blockNum c) =
            .error .nullDeref ∧
        Malloc sys pool heap size = .error .nullDeref) ∧
      (sys (blockSize c * blockNum c) ≠ 0 →
        ∃ heap1 : Heap,
          Malloc sys pool heap size =
            .ok (sys (blockSize c * blockNum c) + (blockNum c - 1) * blockSize c,
              { pool with
                  block_list := pool.block_list.set c
                    (some (slabChain (sys (blockSize c * blockNum c)) c (blockNum c - 1))) },
              heap1) ∧
          heap1.live =
            (sys (blockSize c * blockNum c), blockSize c * blockNum c) :: heap.live ∧
          ∀ a, sys (blockSize c * blockNum c) ≤ a →
            a < sys (blockSize c * blockNum c) + blockSize c * blockNum c →
            heap1.mem a = 0) ∧
      ((∃ res, Malloc sys pool heap size = .ok res) ↔ sys (blockSize c * blockNum c) ≠ 0)) := by
  constructor
  · intro hbig
    have h := Malloc_overflow sys pool heap size hbig
    refine ⟨?_, ?_, ?_⟩
    · intro h0
      refine ⟨by unfold BLOCK_SIZE_MAX at hbig; omega, ?_, ?_, by rw [h, if_pos h0]⟩
      · simp [sysMalloc, h0]
      · simp [memset]
    · intro h0
      rw [h, if_neg h0]
      refine ⟨_, rfl, rfl, ?_⟩
      intro a h1 h2
      simp [h1, h2]
    · constructor
      · rintro ⟨res, hres⟩ h0
        rw [h, if_pos h0] at hres; cases hres
      · intro h0
        rw [h, if_neg h0]
        exact ⟨_, rfl⟩
  · intro c head hs hc64 hc hget hempty
    have hss : blockSize c * blockNum c = slabSize c := rfl
    rw [hss]
    have h := Malloc_provision sys pool heap size c head hs hc hc64 hget hempty
    refine ⟨?_, ?_, ?_⟩
    · intro h0
      refine ⟨slabSize_pos c hc64, ?_, ?_, by rw [h, if_pos h0]⟩
      · simp [sysMalloc, h0]
      · simp [memset]
    · intro h0
      rw [h, if_neg h0]
      refine ⟨_, rfl, rfl, ?_⟩
      intro a h1 h2
      simp [h1, h2]
    · constructor
      · rintro ⟨res, hres⟩ h0
        rw [h, if_pos h0] at hres; cases hres
      · intro h0
        rw [h, if_neg h0]
        exact ⟨_, rfl⟩

/-- C12 witness: on the pool after `Malloc(15)`, a null answer on the overflow
path (600 bytes) and on the provisioning path (8 bytes, class 0 still has a
null head) is undefined behaviour, and a non-null answer on the provisioning
path returns the highest of the 64 slices of the new slab at 3000. -/
theorem malloc_returns_iff_allocator_answers_witness :
    Malloc (fun _ => 0) pool15 heap15 600 = .error .nullDeref ∧
    Malloc (fun _ => 0) pool15 heap15 8 = .error .nullDeref ∧
    ∃ heap1 : Heap,
      Malloc (fun _ => 3000) pool15 heap15 8 =
        .ok (3000 + (blockNum 0 - 1) * blockSize 0,
          { pool15 with
              block_list := pool15.block_list.set 0
                (some (slabChain 3000 0 (blockNum 0 - 1))) },
          heap1) ∧
      heap1.live = (3000, blockSize 0 * blockNum 0) :: heap15.live ∧
      ∀ a, 3000 ≤ a → a < 3000 + blockSize 0 * blockNum 0 → heap1.mem a = 0 :=
  ⟨(((malloc_returns_iff_allocator_answers (fun _ => 0) pool15 heap15 600).1
      (by decide)).1 rfl).2.2.2,
   (((malloc_returns_iff_allocator_answers (fun _ => 0) pool15 heap15 8).2 0 none
      (by decide) (by decide) (by decide) (by rfl) (Or.inl rfl)).1 rfl).2.2.2,
   ((malloc_returns_iff_allocator_answers (fun _ => 3000) pool15 heap15 8).2 0 none
      (by decide) (by decide) (by decide) (by rfl) (Or.inl rfl)).2.1 (by decide)⟩

/-- C13 counterexample: `Init` on a pool record whose sizes are both zero
reports no configuration error: it yields the usual 64 empty lists, leaves the
two fields as they are, and the pool serves `Malloc(15)`. -/
theorem init_accepts_invalid_configuration :
    (Init badPool).block_size_min = 0 ∧ (Init badPool).block_size_max = 0 ∧
    (Init badPool).block_list = List.replicate 64 none ∧
    ∃ (pool1 : MemoryPool) (heap1 : Heap),
      Malloc (fun _ => 1000) (Init badPool) heap0 15 = .ok (1496, pool1, heap1) :=
  ⟨rfl, rfl, rfl, _, _, rfl⟩

/-- C13 amended: `Init` validates nothing and cannot fail.  For every pool
record, whatever its two size fields hold, it yields a pool whose 64 class
entries are all null heads (every class list empty) and leaves the size fields
untouched; the class range is fixed by the constants 8 and 512. -/
theorem init_yields_empty_classes (pool : MemoryPool) :
    (Init pool).block_list = List.replicate 64 none ∧
    (Init pool).block_list.length = BLOCK_SIZE_MAX / BLOCK_SIZE_MIN ∧
    (Init pool).block_size_min = pool.block_size_min ∧
    (Init pool).block_size_max = pool.block_size_max ∧
    (∀ c : Nat, c < 64 → lookup (Init pool) (c : Int) = .ok none) ∧
    freeRegions (Init pool) = [] := by
  have e : (Init pool).block_list = List.replicate 64 none := rfl
  refine ⟨e, ?_, rfl, rfl, ?_, rfl⟩
  · rw [e, List.length_replicate]; decide
  · intro c hc
    rw [lookup_natCast, e, List.getElem?_replicate, if_pos hc]

/-- C14: slab provisioning makes the highest-offset slice the first to be
popped.  For a class `c < 64` with `n = 512 / ((c + 1) * 8)` blocks of
`(c + 1) * 8` bytes, `k ≤ n` consecutive `Malloc` calls of class `c` on a freshly
initialised pool (the first one obtaining the slab at `base ≠ 0`) all return,
request this one slab only, and the `j`-th call (`1 ≤ j ≤ k`) returns
`base + (n - j) * block_size`. -/
theorem pops_highest_slice_first (c : Nat) (hc : c < 64)
    (sys : Nat → Nat) (size : Nat) (calls : List ((Nat → Nat) × Nat))
    (pool : MemoryPool) (heap : Heap)
    (hcalls : ∀ call ∈ (sys, size) :: calls,
      call.2 ≤ BLOCK_SIZE_MAX ∧ classIndex call.2 = (c : Int))
    (hlen : ((sys, size) :: calls).length ≤ blockNum c)
    (hbase : sys (blockSize c * blockNum c) ≠ 0) :
    blockSize c = (c + 1) * 8 ∧ blockNum c = 512 / ((c + 1) * 8) ∧
    ∃ (ptrs : List Nat) (pool1 : MemoryPool) (heap1 : Heap),
      mallocMany ((sys, size) :: calls) (Init pool) heap = .ok (ptrs, pool1, heap1) ∧
      heap1.live =
        (sys (blockSize c * blockNum c), blockSize c * blockNum c) :: heap.live ∧
      ptrs = (((List.range (blockNum c)).reverse).map
          (fun i => sys (blockSize c * blockNum c) + i * blockSize c)).take
            ((sys, size) :: calls).length ∧
      ∀ j, 1 ≤ j → j ≤ ((sys, size) :: calls).length →
        ptrs[j - 1]? = some (sys (blockSize c * blockNum c) + (blockNum c - j) * blockSize c) := by
  refine ⟨rfl, rfl, ?_⟩
  have hss : blockSize c * blockNum c = slabSize c := rfl
  rw [hss] at hbase ⊢
  obtain ⟨hs, hcls⟩ := hcalls (sys, size) (List.mem_cons_self _ _)
  simp only at hs hcls
  have hrest : ∀ call ∈ calls, call.2 ≤ BLOCK_SIZE_MAX ∧ classIndex call.2 = (c : Int) :=
    fun x hx => hcalls x (List.mem_cons_of_mem _ hx)
  have hget : (Init pool).block_list[c]? = some none := by
    have e : (Init pool).block_list = List.replicate 64 none := rfl
    rw [e, List.getElem?_replicate, if_pos hc]
  have hlt : c < (Init pool).block_list.length := (List.getElem?_eq_some_iff.1 hget).1
  have hstep := Malloc_provision sys (Init pool) heap size c none hs hcls hc hget (Or.inl rfl)
  rw [if_neg hbase] at hstep
  simp only [List.length_cons] at hlen
  obtain ⟨n, hn⟩ : ∃ n, blockNum c = n + 1 := ⟨blockNum c - 1, by omega⟩
  have hget1 : ((Init pool).block_list.set c
      (some (slabChain (sys (slabSize c)) c (blockNum c - 1))))[c]? =
      some (some (slabChain (sys (slabSize c)) c (blockNum c - 1))) := by
    simp [List.getElem?_set_self, hlt]
  obtain ⟨pool1, hrun, _⟩ := mallocMany_pops c calls hrest
    { Init pool with
        block_list := (Init pool).block_list.set c
          (some (slabChain (sys (slabSize c)) c (blockNum c - 1))) }
    { live := (sys (slabSize c), slabSize c) :: heap.live,
      mem := fun a => if sys (slabSize c) ≤ a ∧ a < sys (slabSize c) + slabSize c then 0
        else heap.mem a }
    (slabChain (sys (slabSize c)) c (blockNum c - 1)) hget1
    (by rw [slabChain_length]; omega)
  have hptrs : (sys (slabSize c) + (blockNum c - 1) * blockSize c) ::
      ((slabChain (sys (slabSize c)) c (blockNum c - 1)).take calls.length).map
        (fun b => b.ptr) =
      (((List.range (blockNum c)).reverse).map
        (fun i => sys (slabSize c) + i * blockSize c)).take (calls.length + 1) := by
    have hn1 : blockNum c - 1 = n := by omega
    rw [List.map_take, slabChain_ptrs, hn1, hn]
    simp [List.range_succ, List.map_reverse]
  refine ⟨(sys (slabSize c) + (blockNum c - 1) * blockSize c) ::
      ((slabChain (sys (slabSize c)) c (blockNum c - 1)).take calls.length).map
        (fun b => b.ptr), pool1,
    { live := (sys (slabSize c), slabSize c) :: heap.live,
      mem := fun a => if sys (slabSize c) ≤ a ∧ a < sys (slabSize c) + slabSize c then 0
        else heap.mem a }, ?_, rfl, hptrs, ?_⟩
  · simp only [mallocMany, hstep, hrun]
  · intro j hj1 hj2
    simp only [List.length_cons] at hj2
    rw [hptrs, List.getElem?_take_of_lt (by omega), List.getElem?_map,
      List.getElem?_reverse (by rw [List.length_range]; omega), List.length_range,
      List.getElem?_range (by omega)]
    simp only [Option.map_some']
    congr 3
    omega

/-- C14 witness: class 1 (32 blocks of 16 bytes), three calls with sizes 15, 9
and 16 on the fresh pool, the slab being at 1000. -/
theorem pops_highest_slice_first_witness :
    blockSize 1 = (1 + 1) * 8 ∧ blockNum 1 = 512 / ((1 + 1) * 8) ∧
    ∃ (ptrs : List Nat) (pool1 : MemoryPool) (heap1 : Heap),
      mallocMany [(fun _ => 1000, 15), (fun _ => 0, 9), (fun _ => 0, 16)] (Init pool0) heap0 =
        .ok (ptrs, pool1, heap1) ∧
      heap1.live = (1000, blockSize 1 * blockNum 1) :: heap0.live ∧
      ptrs = (((List.range (blockNum 1)).reverse).map
          (fun i => 1000 + i * blockSize 1)).take 3 ∧
      ∀ j, 1 ≤ j → j ≤ 3 →
        ptrs[j - 1]? = some (1000 + (blockNum 1 - j) * blockSize 1) :=
  pops_highest_slice_first 1 (by decide) (fun _ => 1000) 15 [(fun _ => 0, 9), (fun _ => 0, 16)]
    pool0 heap0 (by decide) (by decide) (by decide)

/-- C15: for `size = 0` the `size_t` value `0 / 8 - 1` wraps to `2^64 - 1`, its
conversion to `int` is `-1`, nothing is added since `0 % 8 = 0`, so the index
is `-1`, outside `[0, 64)`: reading `block_list[-1]` is out of bounds in `Malloc`
and in `Free` whatever the pool; hence an in-bounds index for a size of at most
512 needs `size > 0`. -/
theorem classIndex_zero_out_of_bounds :
    (0 / BLOCK_SIZE_MIN + (2 ^ 64 - 1)) % 2 ^ 64 = 2 ^ 64 - 1 ∧
    toInt32 (2 ^ 64 - 1) = -1 ∧
    0 % BLOCK_SIZE_MIN = 0 ∧
    classIndex 0 = -1 ∧
    ¬ (0 ≤ classIndex 0 ∧ classIndex 0 < 64) ∧
    (∀ (sys : Nat → Nat) (pool : MemoryPool) (heap : Heap),
      Malloc sys pool heap 0 = .error (.outOfBounds (-1))) ∧
    (∀ (pool : MemoryPool) (heap : Heap) (ptr : Nat),
      Free pool heap ptr 0 = .error (.outOfBounds (-1))) ∧
    (∀ size : Nat, size ≤ BLOCK_SIZE_MAX →
      0 ≤ classIndex size ∧ classIndex size < 64 → 0 < size) := by
  have h0 : classIndex 0 = -1 := by decide
  refine ⟨by decide, by decide, by decide, h0, by decide, ?_, ?_, ?_⟩
  · intro sys pool heap
    have hl : lookup pool (-1) = .error (.outOfBounds (-1)) := by
      unfold lookup; simp
    unfold Malloc
    simp [BLOCK_SIZE_MAX, h0, hl]
  · intro pool heap ptr
    have hl : lookup pool (-1) = .error (.outOfBounds (-1)) := by
      unfold lookup; simp
    unfold Free
    simp [BLOCK_SIZE_MAX, h0, hl]
  · intro size _ hin
    rcases Nat.eq_zero_or_pos size with h | h
    · rw [h, h0] at hin; omega
    · exact h

/-- C16: head-node invariant of a class `c < 64`.  Once a `Malloc` with a size of
class `c` has returned, `block_list[c]` is a non-null head in every later state
reached through `Malloc` and `Free` calls (whatever their arguments), so a
`Free` with a non-null pointer and a size of class `c` returns instead of
dereferencing a null head.  Conversely, in a state reached from `Init` without
any `Malloc` of class `c`, every `Free` with a size of class `c` dereferences
the null head. -/
theorem head_node_invariant (c : Nat) (hc : c < 64) :
    (∀ (sys : Nat → Nat) (pool : MemoryPool) (heap : Heap) (size ptr : Nat)
        (pool1 : MemoryPool) (heap1 : Heap) (pool2 : MemoryPool) (heap2 : Heap),
      size ≤ BLOCK_SIZE_MAX → classIndex size = (c : Int) →
      Malloc sys pool heap size = .ok (ptr, pool1, heap1) →
      Later pool1 heap1 pool2 heap2 →
      (∃ chain, lookup pool2 (c : Int) = .ok (some chain)) ∧
      ∀ (p size2 : Nat), p ≠ 0 → size2 ≤ BLOCK_SIZE_MAX → classIndex size2 = (c : Int) →
        ∃ (pool3 : MemoryPool) (heap3 : Heap), Free pool2 heap2 p size2 = .ok (pool3, heap3)) ∧
    (∀ (pool : MemoryPool) (heap : Heap), NoMallocOf c pool heap →
      lookup pool (c : Int) = .ok none ∧
      ∀ (p size : Nat), size ≤ BLOCK_SIZE_MAX → classIndex size = (c : Int) →
        Free pool heap p size = .error .nullDeref) := by
  constructor
  · intro sys pool heap size ptr pool1 heap1 pool2 heap2 hs hcls hm hl
    obtain ⟨d, rest, hd, hlt, hpool⟩ := Malloc_ok_set hm hs
    have hdc : d = c := by rw [hcls] at hd; exact_mod_cast hd.symm
    subst hdc
    have hget1 : pool1.block_list[d]? = some (some rest) := by
      rw [hpool]; simp [List.getElem?_set_self, hlt]
    obtain ⟨chain, hget2⟩ := later_keeps_head hl d rest hget1
    refine ⟨⟨chain, by rw [lookup_natCast]; simp only [hget2]⟩, ?_⟩
    intro p size2 hp hs2 hcls2
    have hf := Free_small pool2 heap2 p size2 d chain hs2 hcls2 hget2
    rw [if_neg hp] at hf
    exact ⟨_, _, hf⟩
  · intro pool heap hr
    have hget := noMallocOf_null hc hr
    have hlook : lookup pool (c : Int) = .ok none := by
      rw [lookup_natCast]; simp only [hget]
    refine ⟨hlook, ?_⟩
    intro p size hs hcls
    have hns : ¬ size > BLOCK_SIZE_MAX := by omega
    unfold Free
    simp only [hns, if_false, hcls, hlook]

/-- C16 witness: class 1.  The head created by `Malloc(15)` on the fresh pool
is still there after a further `Malloc(9)`, `Free(1496, 15)` and `Malloc(600)`,
and `Free` of class 1 returns in that state; after `Malloc(8)` on the fresh
pool, which is of class 0, the head of class 1 is null and `Free(1496, 15)`
dereferences it. -/
theorem head_node_invariant_witness :
    ((∃ chain, lookup pool15c ((1 : Nat) : Int) = .ok (some chain)) ∧
      ∃ (pool3 : MemoryPool) (heap3 : Heap),
        Free pool15c heap15d 1480 9 = .ok (pool3, heap3)) ∧
    (lookup pool8 ((1 : Nat) : Int) = .ok none ∧
      Free pool8 heap8 1496 15 = .error .nullDeref) :=
  ⟨⟨((head_node_invariant 1 (by decide)).1 (fun _ => 1000) (Init pool0) heap0 15 1496
        pool15 heap15 pool15c heap15d (by decide) (by decide) (by rfl) later_pool15c).1,
    ((head_node_invariant 1 (by decide)).1 (fun _ => 1000) (Init pool0) heap0 15 1496
        pool15 heap15 pool15c heap15d (by decide) (by decide) (by rfl) later_pool15c).2
      1480 9 (by decide) (by decide) (by decide)⟩,
   ((head_node_invariant 1 (by decide)).2 pool8 heap8 noMallocOf_pool8).1,
   ((head_node_invariant 1 (by decide)).2 pool8 heap8 noMallocOf_pool8).2
      1496 15 (by decide) (by decide)⟩

namespace Simple

/-- C17 counterexample: the blocks handed out are not always pairwise distinct
blocks `data + i * block_size`.  With `block_size = 0` the two blocks of a
two-block pool are the same address; with `block_size = 2^63` and three blocks
the offset `2 * 2^63` wraps to `0`, so `data` is returned twice; with
`block_size = 2^64 - 16`, two blocks and `data = 8192` the 64-bit addition wraps
and the first call returns `8176`, not `data + block_size`. -/
theorem uniform_blocks_not_distinct :
    (allocateMany 2 (init_memory_pool (fun _ => 1000) emptyPool heap0 0 2).1).1 =
      [1000, 1000] ∧
    ¬ (allocateMany 2 (init_memory_pool (fun _ => 1000) emptyPool heap0 0 2).1).1.Nodup ∧
    (allocateMany 3 (init_memory_pool (fun _ => 1000) emptyPool heap0 (2 ^ 63) 3).1).1 =
      [1000, 1000 + 2 ^ 63, 1000] ∧
    ¬ (allocateMany 3 (init_memory_pool (fun _ => 1000) emptyPool heap0 (2 ^ 63) 3).1).1.Nodup ∧
    (allocateMany 3 (init_memory_pool (fun _ => 8192) emptyPool heap0 (2 ^ 64 - 16) 2).1).1 =
      [8176, 8192, 0] ∧
    (8176 : Nat) ≠ 8192 + 1 * (2 ^ 64 - 16) := by
  decide

/-- C17 amended: after `init_memory_pool(pool, block_size, n)` on a pool with an
empty free list, with `data` the answer of `malloc`, the first `n` calls of
`allocate_memory_block` return `(data + i * block_size) mod 2^64` for `i` from
`n - 1` down to `0` and empty the list, and the next call returns null and
leaves the pool unchanged; when `block_size > 0`, `block_size * n < 2^64` and
`data + block_size * n ≤ 2^64` (neither the product nor the addresses
overflow) these are the `n` pairwise distinct blocks `data + i * block_size`;
and `deallocate_memory_block(pool, b)` followed by
`allocate_memory_block(pool)` returns `b` and restores the pool. -/
theorem uniform_pool_lifo (sys : Nat → Nat) (pool : MemoryPool) (heap : Heap)
    (block_size n : Nat) (hempty : pool.free_blocks = []) :
    (init_memory_pool sys pool heap block_size n).1.data = sys ((block_size * n) % 2 ^ 64) ∧
    (allocateMany n (init_memory_pool sys pool heap block_size n).1).1 =
      (List.range n).reverse.map
        (fun i => (sys ((block_size * n) % 2 ^ 64) + i * block_size) % 2 ^ 64) ∧
    (allocateMany n (init_memory_pool sys pool heap block_size n).1).2 =
      { data := sys ((block_size * n) % 2 ^ 64), block_size := block_size, free_blocks := [] } ∧
    allocate_memory_block (allocateMany n (init_memory_pool sys pool heap block_size n).1).2 =
      (0, (allocateMany n (init_memory_pool sys pool heap block_size n).1).2) ∧
    (0 < block_size → block_size * n < 2 ^ 64 →
      sys (block_size * n) + block_size * n ≤ 2 ^ 64 →
      (allocateMany n (init_memory_pool sys pool heap block_size n).1).1 =
        (List.range n).reverse.map (fun i => sys (block_size * n) + i * block_size) ∧
      (allocateMany n (init_memory_pool sys pool heap block_size n).1).1.Nodup) ∧
    (∀ (q : MemoryPool) (b : Nat),
      allocate_memory_block (deallocate_memory_block q b) = (b, q)) := by
  have hinit := init_memory_pool_eq sys pool heap block_size n hempty
  have hall := allocateMany_all
    ((List.range n).map
      (fun i => (sys ((block_size * n) % 2 ^ 64) + i * block_size) % 2 ^ 64))
    (init_memory_pool sys pool heap block_size n).1 (by rw [hinit])
  rw [List.length_map, List.length_range] at hall
  have h1 : (allocateMany n (init_memory_pool sys pool heap block_size n).1).1 =
      (List.range n).reverse.map
        (fun i => (sys ((block_size * n) % 2 ^ 64) + i * block_size) % 2 ^ 64) := by
    rw [hall, List.map_reverse]
  have h2 : (allocateMany n (init_memory_pool sys pool heap block_size n).1).2 =
      { data := sys ((block_size * n) % 2 ^ 64), block_size := block_size,
        free_blocks := [] } := by
    rw [hall, hinit]
  refine ⟨by rw [hinit], h1, h2, ?_, ?_, ?_⟩
  · rw [h2]; exact allocate_empty _ rfl
  · intro hpos hfit haddr
    have hreq : (block_size * n) % 2 ^ 64 = block_size * n := Nat.mod_eq_of_lt hfit
    have hoff : ∀ i ∈ (List.range n).reverse,
        (sys ((block_size * n) % 2 ^ 64) + i * block_size) % 2 ^ 64 =
          sys (block_size * n) + i * block_size := by
      intro i hi
      have hi1 : i < n := List.mem_range.1 (List.mem_reverse.1 hi)
      have hle : (i + 1) * block_size ≤ n * block_size := Nat.mul_le_mul_right _ hi1
      rw [Nat.add_mul, Nat.one_mul] at hle
      have hcomm : block_size * n = n * block_size := Nat.mul_comm _ _
      have hlt : sys (block_size * n) + i * block_size < 2 ^ 64 := by omega
      rw [hreq, Nat.mod_eq_of_lt hlt]
    have h3 : (allocateMany n (init_memory_pool sys pool heap block_size n).1).1 =
        (List.range n).reverse.map (fun i => sys (block_size * n) + i * block_size) := by
      rw [h1]; exact List.map_congr_left hoff
    refine ⟨h3, ?_⟩
    rw [h3]
    refine List.Nodup.map ?_ (List.nodup_reverse.2 (List.nodup_range n))
    intro i j hij
    simp only [Nat.add_left_cancel_iff] at hij
    exact Nat.eq_of_mul_eq_mul_right hpos hij
  · intro q b
    exact allocate_push (deallocate_memory_block q b) q.free_blocks b rfl

/-- C17 witness: the pool of `main`, 100 blocks of 256 bytes, the backing
region being at 1000. -/
theorem uniform_pool_lifo_witness :
    (init_memory_pool (fun _ => 1000) emptyPool heap0 256 100).1.data = 1000 ∧
    (allocateMany 100 (init_memory_pool (fun _ => 1000) emptyPool heap0 256 100).1).2 =
      { data := 1000, block_size := 256, free_blocks := [] } ∧
    (allocateMany 100 (init_memory_pool (fun _ => 1000) emptyPool heap0 256 100).1).1 =
      (List.range 100).reverse.map (fun i => 1000 + i * 256) ∧
    (allocateMany 100 (init_memory_pool (fun _ => 1000) emptyPool heap0 256 100).1).1.Nodup :=
  ⟨(uniform_pool_lifo (fun _ => 1000) emptyPool heap0 256 100 rfl).1,
   (uniform_pool_lifo (fun _ => 1000) emptyPool heap0 256 100 rfl).2.2.1,
   (uniform_pool_lifo (fun _ => 1000) emptyPool heap0 256 100 rfl).2.2.2.2.1
     (by decide) (by decide) (by decide)⟩

end Simple

end MemPool
